import Mathlib

/-!
The user lists of the submit queue.

A shallow embedding of `submit-queue/user-lists.go`: the membership resolver
(`RefreshWhitelist`), the persisted list store (`loadWhitelist`, `writeWhitelist`)
and the reconciler (`doGenCommitters`), with the parts of the Go runtime they call
(`strings`, `bufio.Scanner`, `os.Open`, `ioutil.WriteFile`, `util.StringSet`).

Go strings are embedded as Lean strings; the file system and the answer of the
commit-access source are explicit arguments, and the effects of a call are returned
next to its result.
-/

namespace SubmitQueue

/-! ## Go runtime -/

/-- Go `error` values that the embedded code can meet. -/
inductive GoError where
  | PathError (op path : String)
  | ErrTooLong
  | Other (msg : String)
  deriving DecidableEq, Repr

/-- The type `util.StringSet`, a `map[string]struct{}`: a finite set of keys. -/
abbrev StringSet := Finset String

/-- The method `StringSet.Insert(items...)`: adds every item to the set. -/
def StringSet.Insert (s : StringSet) (items : List String) : StringSet :=
  items.foldl (fun acc item => insert item acc) s

/-- The method `StringSet.Has(item)`. -/
def StringSet.Has (s : StringSet) (item : String) : Bool :=
  decide (item ∈ s)

/-- The function `util.NewStringSet(items...)`. -/
def NewStringSet (items : List String) : StringSet :=
  StringSet.Insert ∅ items

/-- The function `strings.HasPrefix(s, p)`. -/
def HasPrefix (s p : String) : Bool :=
  p.data.isPrefixOf s.data

/-- The function `strings.Join(a, sep)`. -/
def Join : List String → String → String
  | [], _ => ""
  | [a], _ => a
  | a :: b :: rest, sep => a ++ sep ++ Join (b :: rest) sep

/-- Length in bytes of the UTF-8 encoding of a run of characters (Go `len`). -/
def byteLen : List Char → Nat
  | [] => 0
  | c :: cs => c.utf8Size + byteLen cs

/-- The constant `bufio.MaxScanTokenSize`. -/
def MaxScanTokenSize : Nat := 64 * 1024

/-- The helper `dropCR` of `bufio`: drops one terminal carriage return. -/
def dropCR (data : List Char) : List Char :=
  if data.getLast? = some '\r' then data.dropLast else data

/-- One delivery of the `bufio.ScanLines` scanner: the line `line` has been read in
full and `k` is what the scanner does with the rest of the input. A line that does
not fit the buffer stops the scan with `ErrTooLong`; otherwise the line, without its
end-of-line marker, is the next token. -/
def emitLine (max : Nat) (line : List Char) (k : List String × Option GoError) :
    List String × Option GoError :=
  if max ≤ byteLen line then ([], some GoError.ErrTooLong)
  else (String.mk (dropCR line) :: k.1, k.2)

/-- Draining a `bufio.Scanner` with the default split function `ScanLines` and
buffer limit `max`: `cur` is the part of the current line read so far, the second
argument the input still to read. The result is the list of tokens that the
successive `Scan()`/`Text()` calls deliver and the final `Err()`. A line feed ends
a line; at the end of input a non-empty unterminated line is delivered too. -/
def scanLines (max : Nat) : List Char → List Char → List String × Option GoError
  | cur, [] => if cur = [] then ([], none) else emitLine max cur ([], none)
  | cur, c :: cs =>
    if c = '\n' then emitLine max cur (scanLines max [] cs)
    else scanLines max (cur ++ [c]) cs

/-- What opening a file for reading gives: `absent` when it cannot be opened (it is
missing or not permitted), `readable content` when it opens and is read to its end,
`faulty delivered err` when it opens and reading ends with the I/O error `err` after
`delivered` was read (a directory opens and fails at the first read). -/
inductive FileState where
  | absent
  | readable (content : String)
  | faulty (delivered : String) (err : GoError)
  deriving DecidableEq, Repr

/-- A file system. `fileOf p` is the file that the path `p` names: two paths such as
`list.txt` and `./list.txt` may name one file. The other fields are keyed by file:
`state f` is what opening `f` for reading gives, `writable f` tells whether `f` can be
created or truncated for writing, and `shortWrite f` is `some n` when a write to `f`
stops with an error after `n` characters. A file that was written in full can be read
back to its end. -/
structure FS where
  fileOf : String → String
  state : String → FileState
  writable : String → Bool
  shortWrite : String → Option Nat

/-- The content that opening the path `p` and reading to the end gives; `none` when
`p` cannot be opened or cannot be read to its end. -/
def FS.files (fs : FS) (p : String) : Option String :=
  match fs.state (fs.fileOf p) with
  | FileState.readable content => some content
  | _ => none

/-- The file system in which the file `f` has the state `st` and every other file is
as in `fs`. -/
def FS.put (fs : FS) (f : String) (st : FileState) : FS :=
  { fs with state := fun g => if g = f then st else fs.state g }

/-- The function `os.Open(name)` followed by reading the file: the bytes read and the
I/O error that ended the read, if any. The empty name cannot be opened. -/
def osOpen (fs : FS) (name : String) : Except GoError (String × Option GoError) :=
  if name = "" then Except.error (GoError.PathError "open" name)
  else match fs.state (fs.fileOf name) with
    | FileState.absent => Except.error (GoError.PathError "open" name)
    | FileState.readable content => Except.ok (content, none)
    | FileState.faulty delivered err => Except.ok (delivered, some err)

/-- The function `ioutil.WriteFile(name, data, 0640)`. It opens the file with
`O_WRONLY|O_CREATE|O_TRUNC`, writes `data` and closes. When the open fails (always so
for the empty name) the file system is left as it was and the error is returned. When
the open succeeds the earlier content is gone: the file holds `data`, or, when the
write stops after `n` characters, the first `n` characters of `data`, and then the
error of the write is returned. -/
def WriteFile (fs : FS) (name data : String) : FS × Option GoError :=
  if name ≠ "" ∧ fs.writable (fs.fileOf name) = true then
    match fs.shortWrite (fs.fileOf name) with
    | none => (fs.put (fs.fileOf name) (FileState.readable data), none)
    | some n =>
      (fs.put (fs.fileOf name) (FileState.readable (String.mk (data.data.take n))),
        some (GoError.PathError "write" name))
  else (fs, some (GoError.PathError "open" name))

/-! ## user-lists.go -/

/-- Modelled from the spec: the declaration of the struct `SubmitQueueConfig` is not
part of `user-lists.go`; these are the fields that file reads and writes (section 3,
Configuration). -/
structure SubmitQueueConfig where
  Whitelist : String
  WhitelistOverride : String
  Committers : String
  committerList : List String
  additionalUserWhitelist : List String
  userWhitelist : StringSet

/-- The method `RefreshWhitelist`. `UsersWithCommit` is the answer of
`config.UsersWithCommit()` (the commit-access source); the result is the returned
set and the configuration after the call. -/
def RefreshWhitelist (config : SubmitQueueConfig)
    (UsersWithCommit : Except GoError (List String)) : StringSet × SubmitQueueConfig :=
  let userSet : StringSet := ∅
  let userSet := StringSet.Insert userSet config.additionalUserWhitelist
  let userSet :=
    match UsersWithCommit with
    | Except.error _ => StringSet.Insert userSet config.committerList
    | Except.ok usersWithCommit => StringSet.Insert userSet usersWithCommit
  (userSet, { config with userWhitelist := userSet })

/-- The function `loadWhitelist`. The first component is the returned slice (`none`
for `nil`), the second the returned error `scanner.Err()` (`none` for `nil`): the
error of the scanner if it stopped at a line too long, else the I/O error that ended
the read, if any. -/
def loadWhitelist (fs : FS) (file : String) : Option (List String) × Option GoError :=
  if file = "" then (some [], none)
  else match osOpen fs file with
    | Except.error err => (none, some err)
    | Except.ok (data, readErr) =>
      let scanned := scanLines MaxScanTokenSize [] data.data
      let result := scanned.1.foldl
        (fun result current => if !HasPrefix current "#" then result ++ [current] else result) []
      (some result,
        match scanned.2 with
        | some err => some err
        | none => readErr)

/-- The function `writeWhitelist`: the file system after the call and the returned
error. -/
def writeWhitelist (fs : FS) (fileName header : String) (items : List String) :
    FS × Option GoError :=
  let items := [header] ++ items
  let items := items ++ [""]
  WriteFile fs fileName (Join items "\n")

/-- The de-duplication loop of `doGenCommitters` (`existing`, `newUsers` and the
`for _, u := range users` loop): the value of `newUsers` after the loop. -/
def dedupUsers (c users : List String) : List String :=
  let existing := NewStringSet c
  let newUsers : List String := []
  (users.foldl
    (fun (st : StringSet × List String) u =>
      if StringSet.Has st.1 u then st
      else (StringSet.Insert st.1 [u], st.2 ++ [u]))
    (existing, newUsers)).2

/-- The header that `doGenCommitters` gives the committers file; `arg0` is
`os.Args[0]`. -/
def committersHeader (arg0 : String) : String :=
  "# auto-generated by " ++ arg0 ++ " gen-committers; manual additions should go in the whitelist"

/-- The header that `doGenCommitters` gives the de-duplicated whitelist file. -/
def whitelistHeader (arg0 : String) : String :=
  "# remove dups with " ++ arg0 ++ " gen-committers"

/-- The method `doGenCommitters`. `arg0` is `os.Args[0]` and `UsersWithCommit` the
answer of `config.UsersWithCommit()`. The result is the file system when the call
ends and either `ok ()` (the method returned `nil`) or `error msg` (the process was
ended by `glog.Fatalf` with that message). -/
def doGenCommitters (config : SubmitQueueConfig) (arg0 : String)
    (UsersWithCommit : Except GoError (List String)) (fs : FS) : FS × Except String Unit :=
  match UsersWithCommit with
  | Except.error _ => (fs, Except.error "Unable to read committers from github")
  | Except.ok c =>
    match writeWhitelist fs config.Committers (committersHeader arg0) c with
    | (fs1, some _) => (fs1, Except.error "Unable to write committers")
    | (fs1, none) =>
      match loadWhitelist fs1 config.Whitelist with
      | (_, some _) => (fs1, Except.error "error loading whitelist; it will not be updated")
      | (users, none) =>
        let newUsers := dedupUsers c (users.getD [])
        match writeWhitelist fs1 config.Whitelist (whitelistHeader arg0) newUsers with
        | (fs2, some _) => (fs2, Except.error "Unable to write de-duped whitelist")
        | (fs2, none) => (fs2, Except.ok ())

/-- A file system with one readable and writable file. -/
def oneFile (path content : String) : FS :=
  { fileOf := fun p => p
    state := fun f => if f = path then FileState.readable content else FileState.absent
    writable := fun f => decide (f = path)
    shortWrite := fun _ => none }

/-- The entries of `users` that are neither in `c` nor among the entries before them
in the list (`earlier` holds the entries already passed), in their order: what is
left of `users` when the members of `c` are dropped and every other entry is kept at
its first occurrence only. -/
def keptEntries (c : List String) : List String → List String → List String
  | _, [] => []
  | earlier, u :: rest =>
    if u ∈ c ∨ u ∈ earlier then keptEntries c (earlier ++ [u]) rest
    else u :: keptEntries c (earlier ++ [u]) rest

/-- The lines of a text: a line feed ends a line, and a non-empty run of characters
after the last line feed is a line too. -/
def textLines : List Char → List (List Char)
  | [] => []
  | c :: cs =>
    if c = '\n' then [] :: textLines cs
    else match textLines cs with
      | [] => [[c]]
      | l :: ls => (c :: l) :: ls

/-- What the specification says loading returns: the lines of the file that do not
begin with the comment marker, in file order, each with its text as it stands. -/
def nonCommentLines (content : String) : List String :=
  ((textLines content.data).filter (fun l => !(['#'].isPrefixOf l))).map String.mk

/-- The characters of a text made of the given lines, each ended by a line feed. -/
def fileChars : List String → List Char
  | [] => []
  | l :: ls => l.data ++ '\n' :: fileChars ls

/-- A configuration for examples. -/
def exampleConfig : SubmitQueueConfig :=
  { Whitelist := "whitelist.txt"
    WhitelistOverride := "ok-to-merge"
    Committers := "committers.txt"
    committerList := ["dave"]
    additionalUserWhitelist := ["alice"]
    userWhitelist := ∅ }

/-- A file system for examples: every path is writable and the whitelist file holds
the three entries `alice`, `carol`, `carol`. -/
def exampleFS : FS :=
  { fileOf := fun p => p
    state := fun f =>
      if f = "whitelist.txt" then FileState.readable "alice\ncarol\ncarol\n"
      else FileState.absent
    writable := fun _ => true
    shortWrite := fun _ => none }

/-- A file system for examples: every path is writable and the whitelist file holds
the one line `bob` followed by two carriage returns. -/
def carriageReturnFS : FS :=
  { fileOf := fun p => p
    state := fun f =>
      if f = "whitelist.txt" then FileState.readable "bob\r\r\n" else FileState.absent
    writable := fun _ => true
    shortWrite := fun _ => none }

/-- A file system for examples: no file exists and every path is writable. -/
def emptyFS : FS :=
  { fileOf := fun p => p
    state := fun _ => FileState.absent
    writable := fun _ => true
    shortWrite := fun _ => none }

/-- A file system for examples: the whitelist file holds the entry `carol` and cannot
be written; every other path is writable and holds no file. -/
def readOnlyWhitelistFS : FS :=
  { fileOf := fun p => p
    state := fun f =>
      if f = "whitelist.txt" then FileState.readable "carol\n" else FileState.absent
    writable := fun f => decide (f ≠ "whitelist.txt")
    shortWrite := fun _ => none }

/-- A file system for examples: the whitelist file holds the entry `carol`, every path
is writable, and a write to the whitelist file stops with an error after five
characters. -/
def shortWriteFS : FS :=
  { fileOf := fun p => p
    state := fun f =>
      if f = "whitelist.txt" then FileState.readable "carol\n" else FileState.absent
    writable := fun _ => true
    shortWrite := fun f => if f = "whitelist.txt" then some 5 else none }

/-- A file system for examples: no file exists, every path is writable, and the paths
`list.txt` and `./list.txt` name one file. -/
def aliasFS : FS :=
  { fileOf := fun p => if p = "./list.txt" then "list.txt" else p
    state := fun _ => FileState.absent
    writable := fun _ => true
    shortWrite := fun _ => none }

/-- A configuration for examples whose committers path and whitelist path differ as
strings and name one file in `aliasFS`. -/
def aliasConfig : SubmitQueueConfig :=
  { Whitelist := "./list.txt"
    WhitelistOverride := "ok-to-merge"
    Committers := "list.txt"
    committerList := ["dave"]
    additionalUserWhitelist := ["alice"]
    userWhitelist := ∅ }

/-- A configuration for examples whose committers file and whitelist file are the
same path. -/
def samePathConfig : SubmitQueueConfig :=
  { Whitelist := "list.txt"
    WhitelistOverride := "ok-to-merge"
    Committers := "list.txt"
    committerList := ["dave"]
    additionalUserWhitelist := ["alice"]
    userWhitelist := ∅ }

/-- A configuration for examples: `exampleConfig` with a stored allow-set left by an
earlier refresh. -/
def staleConfig : SubmitQueueConfig :=
  { exampleConfig with userWhitelist := {"mallory", "alice"} }

/-! ## The string set -/

theorem StringSet.mem_Insert (s : StringSet) (items : List String) (u : String) :
    u ∈ StringSet.Insert s items ↔ u ∈ s ∨ u ∈ items := by
  unfold StringSet.Insert
  induction items generalizing s with
  | nil => simp
  | cons a rest ih =>
    rw [List.foldl_cons, ih]
    simp only [Finset.mem_insert, List.mem_cons]
    tauto

theorem mem_NewStringSet (items : List String) (u : String) :
    u ∈ NewStringSet items ↔ u ∈ items := by
  simp [NewStringSet, StringSet.mem_Insert]

/-! ## RefreshWhitelist -/

/-- C1: whatever the configuration and whatever the commit-access source answers (a
list or a failure), every username of the additional whitelist is in the set that
`RefreshWhitelist` returns. -/
theorem RefreshWhitelist_superset (config : SubmitQueueConfig)
    (UsersWithCommit : Except GoError (List String)) (u : String)
    (h : u ∈ config.additionalUserWhitelist) :
    u ∈ (RefreshWhitelist config UsersWithCommit).1 := by
  cases UsersWithCommit <;>
    simp [RefreshWhitelist, StringSet.mem_Insert, h]

theorem RefreshWhitelist_superset_witness :
    "alice" ∈ exampleConfig.additionalUserWhitelist ∧
      "alice" ∈ (RefreshWhitelist exampleConfig (Except.error GoError.ErrTooLong)).1 :=
  ⟨by decide, RefreshWhitelist_superset exampleConfig _ "alice" (by decide)⟩

/-- C2: when the commit-access source succeeds with the list `S`, a username is in the
set returned by `RefreshWhitelist` exactly when it is in the additional whitelist or
in `S`; the fallback list `committerList` plays no part. -/
theorem RefreshWhitelist_fetch_ok (config : SubmitQueueConfig) (S : List String)
    (u : String) :
    u ∈ (RefreshWhitelist config (Except.ok S)).1 ↔
      u ∈ config.additionalUserWhitelist ∨ u ∈ S := by
  simp [RefreshWhitelist, StringSet.mem_Insert]

/-- C3: when the commit-access source fails, `RefreshWhitelist` (a total function with
no error result) returns the set whose members are exactly the usernames of the
additional whitelist and of the fallback list `committerList`. -/
theorem RefreshWhitelist_fetch_error (config : SubmitQueueConfig) (err : GoError)
    (u : String) :
    u ∈ (RefreshWhitelist config (Except.error err)).1 ↔
      u ∈ config.additionalUserWhitelist ∨ u ∈ config.committerList := by
  simp [RefreshWhitelist, StringSet.mem_Insert]

/-! ## The de-duplication loop -/

theorem dedup_foldl (c : List String) (users : List String) :
    ∀ (ex : StringSet) (acc earlier : List String),
      (∀ x, x ∈ ex ↔ x ∈ c ∨ x ∈ earlier) →
      (users.foldl
        (fun (st : StringSet × List String) u =>
          if StringSet.Has st.1 u then st
          else (StringSet.Insert st.1 [u], st.2 ++ [u]))
        (ex, acc)).2 = acc ++ keptEntries c earlier users := by
  induction users with
  | nil => intro ex acc earlier _; simp [keptEntries]
  | cons u rest ih =>
    intro ex acc earlier hex
    rw [List.foldl_cons]
    by_cases hu : u ∈ ex
    · have h1 : StringSet.Has ex u = true := by simp [StringSet.Has, hu]
      have h2 : u ∈ c ∨ u ∈ earlier := (hex u).1 hu
      simp only [h1, if_true]
      rw [ih ex acc (earlier ++ [u])]
      · simp [keptEntries, h2]
      · intro x
        rw [hex x, List.mem_append, List.mem_singleton]
        constructor
        · rintro (h | h)
          · exact Or.inl h
          · exact Or.inr (Or.inl h)
        · rintro (h | h | h)
          · exact Or.inl h
          · exact Or.inr h
          · subst h; exact h2
    · have h1 : StringSet.Has ex u = false := by simp [StringSet.Has, hu]
      have h2 : ¬ (u ∈ c ∨ u ∈ earlier) := fun h => hu ((hex u).2 h)
      simp only [h1, Bool.false_eq_true, if_false]
      rw [ih (StringSet.Insert ex [u]) (acc ++ [u]) (earlier ++ [u])]
      · simp [keptEntries, h2]
      · intro x
        rw [StringSet.mem_Insert, hex x, List.mem_append]
        tauto

theorem dedupUsers_eq_keptEntries (c users : List String) :
    dedupUsers c users = keptEntries c [] users := by
  unfold dedupUsers
  rw [dedup_foldl c users (NewStringSet c) [] []]
  · simp
  · intro x; simp [mem_NewStringSet]

theorem keptEntries_not_mem (c : List String) (users : List String) :
    ∀ (earlier : List String) (u : String), u ∈ keptEntries c earlier users → u ∉ c := by
  induction users with
  | nil => intro earlier u h; simp [keptEntries] at h
  | cons a rest ih =>
    intro earlier u h
    unfold keptEntries at h
    split at h
    · exact ih _ u h
    · rename_i hn
      rcases List.mem_cons.1 h with h | h
      · subst h; exact fun hc => hn (Or.inl hc)
      · exact ih _ u h

/-! ## The line scanner -/

theorem textLines_append_lf (l rest : List Char) (h : '\n' ∉ l) :
    textLines (l ++ '\n' :: rest) = l :: textLines rest := by
  induction l with
  | nil => simp [textLines]
  | cons c l ih =>
    have hc : c ≠ '\n' := fun e => h (by simp [e])
    have hl : '\n' ∉ l := fun e => h (List.mem_cons_of_mem _ e)
    simp [textLines, hc, ih hl]

theorem textLines_no_lf (l : List Char) (h : '\n' ∉ l) (hne : l ≠ []) :
    textLines l = [l] := by
  induction l with
  | nil => exact absurd rfl hne
  | cons c l ih =>
    have hc : c ≠ '\n' := fun e => h (by simp [e])
    have hl : '\n' ∉ l := fun e => h (List.mem_cons_of_mem _ e)
    cases l with
    | nil => simp [textLines, hc]
    | cons d l =>
      have h2 := ih hl (by simp)
      rw [textLines]
      simp only [hc, if_false, h2]

theorem scanLines_eq_textLines (max : Nat) (data : List Char) :
    ∀ cur : List Char, '\n' ∉ cur →
      (∀ l ∈ textLines (cur ++ data), byteLen l < max) →
      scanLines max cur data =
        ((textLines (cur ++ data)).map (fun l => String.mk (dropCR l)), none) := by
  induction data with
  | nil =>
    intro cur hcur hlen
    by_cases hne : cur = []
    · subst hne; simp [scanLines, textLines]
    · rw [List.append_nil] at hlen ⊢
      rw [textLines_no_lf cur hcur hne] at hlen ⊢
      have hlt : ¬ max ≤ byteLen cur := Nat.not_le.2 (hlen cur (by simp))
      simp [scanLines, hne, emitLine, hlt]
  | cons c cs ih =>
    intro cur hcur hlen
    by_cases hc : c = '\n'
    · subst hc
      rw [textLines_append_lf cur cs hcur] at hlen ⊢
      have hlt : ¬ max ≤ byteLen cur := Nat.not_le.2 (hlen cur (by simp))
      have hrest := ih [] (by simp) (by
        intro l hl
        exact hlen l (List.mem_cons_of_mem _ (by simpa using hl)))
      simp only [List.nil_append] at hrest
      simp [scanLines, emitLine, hlt, hrest]
    · have hcur2 : '\n' ∉ cur ++ [c] := by
        simp only [List.mem_append, List.mem_singleton, not_or]
        exact ⟨hcur, fun e => hc e.symm⟩
      have heq : cur ++ c :: cs = (cur ++ [c]) ++ cs := by simp
      rw [heq] at hlen ⊢
      simp only [scanLines, hc, if_false]
      exact ih (cur ++ [c]) hcur2 hlen

theorem scanLines_no_lf (max : Nat) (l : List Char) (h : '\n' ∉ l) :
    ∀ cur : List Char, scanLines max cur l =
      if cur ++ l = [] then ([], none) else emitLine max (cur ++ l) ([], none) := by
  induction l with
  | nil => intro cur; simp [scanLines]
  | cons c l ih =>
    intro cur
    have hc : c ≠ '\n' := fun e => h (by simp [e])
    have hl : '\n' ∉ l := fun e => h (List.mem_cons_of_mem _ e)
    simp only [scanLines, hc, if_false]
    rw [ih hl (cur ++ [c])]
    simp

theorem byteLen_replicate (n : Nat) : byteLen (List.replicate n 'a') = n := by
  induction n with
  | zero => rfl
  | succ n ih =>
    rw [List.replicate_succ, byteLen, ih]
    have : 'a'.utf8Size = 1 := by decide
    omega

/-! ## The persisted list store -/

theorem filter_loop (tokens : List String) :
    ∀ acc : List String,
      tokens.foldl
        (fun result current => if !HasPrefix current "#" then result ++ [current] else result)
        acc = acc ++ tokens.filter (fun t => !HasPrefix t "#") := by
  induction tokens with
  | nil => intro acc; simp
  | cons t ts ih =>
    intro acc
    rw [List.foldl_cons, ih]
    by_cases h : HasPrefix t "#" = true
    · simp [h]
    · simp [h]

theorem files_eq_some (fs : FS) (p c : String) (h : fs.files p = some c) :
    fs.state (fs.fileOf p) = FileState.readable c := by
  cases hst : fs.state (fs.fileOf p) <;> simp [FS.files, hst] at h ⊢
  exact h

theorem put_files_same (fs : FS) (f p c : String) (h : fs.fileOf p = f) :
    (fs.put f (FileState.readable c)).files p = some c := by
  simp [FS.files, FS.put, h]

theorem put_files_other (fs : FS) (f p : String) (st : FileState) (h : fs.fileOf p ≠ f) :
    (fs.put f st).files p = fs.files p := by
  simp [FS.files, FS.put, h]

theorem loadWhitelist_of_file (fs : FS) (path content : String) (hpath : path ≠ "")
    (hfile : fs.files path = some content) :
    loadWhitelist fs path =
      (some ((scanLines MaxScanTokenSize [] content.data).1.filter
          (fun t => !HasPrefix t "#")),
        (scanLines MaxScanTokenSize [] content.data).2) := by
  have hst := files_eq_some fs path content hfile
  unfold loadWhitelist osOpen
  simp only [hpath, if_false, hst]
  rw [filter_loop]
  cases (scanLines MaxScanTokenSize [] content.data).2 <;> simp

theorem hasPrefix_dropCR (l : List Char) :
    HasPrefix (String.mk (dropCR l)) "#" = ['#'].isPrefixOf l := by
  have hd : "#".data = ['#'] := rfl
  unfold HasPrefix
  rw [hd]
  cases l with
  | nil => simp [dropCR]
  | cons c t =>
    cases t with
    | nil =>
      by_cases hc : c = '\r'
      · subst hc; simp [dropCR]; decide
      · simp [dropCR, hc]
    | cons d t =>
      unfold dropCR
      split <;> simp [List.isPrefixOf]

theorem loadWhitelist_short_lines (fs : FS) (path content : String) (hpath : path ≠ "")
    (hfile : fs.files path = some content)
    (hshort : ∀ l ∈ textLines content.data, byteLen l < MaxScanTokenSize) :
    loadWhitelist fs path =
      (some (((textLines content.data).filter (fun l => !(['#'].isPrefixOf l))).map
        (fun l => String.mk (dropCR l))), none) := by
  rw [loadWhitelist_of_file fs path content hpath hfile,
    scanLines_eq_textLines MaxScanTokenSize content.data [] (by simp) (by simpa using hshort)]
  simp only [List.nil_append, List.filter_map]
  congr 2
  apply congrArg
  apply List.filter_congr
  intro l _
  simp [Function.comp, hasPrefix_dropCR]

theorem scanLines_line (max : Nat) (l rest : List Char) (h : '\n' ∉ l) :
    ∀ cur : List Char, scanLines max cur (l ++ '\n' :: rest) =
      emitLine max (cur ++ l) (scanLines max [] rest) := by
  induction l with
  | nil => intro cur; simp [scanLines]
  | cons c l ih =>
    intro cur
    have hc : c ≠ '\n' := fun e => h (by simp [e])
    have hl : '\n' ∉ l := fun e => h (List.mem_cons_of_mem _ e)
    rw [List.cons_append]
    simp only [scanLines, hc, if_false]
    rw [ih hl (cur ++ [c])]
    simp

theorem replicate_no_lf (n : Nat) : '\n' ∉ List.replicate n 'a' := by
  intro h
  have h2 := List.eq_of_mem_replicate h
  exact absurd h2 (by decide)

theorem long_line_file (fs : FS) (path : String) (n : Nat) (hpath : path ≠ "")
    (hfile : fs.files path = some (String.mk (List.replicate n 'a')))
    (hn : MaxScanTokenSize ≤ n) :
    loadWhitelist fs path = (some [], some GoError.ErrTooLong) := by
  have hpos : 0 < n := Nat.lt_of_lt_of_le (by decide) hn
  have hne : List.replicate n 'a' ≠ [] := by
    intro h
    have h2 := congrArg List.length h
    rw [List.length_replicate] at h2
    exact absurd h2 (Nat.pos_iff_ne_zero.1 hpos)
  rw [loadWhitelist_of_file fs path _ hpath hfile]
  show (some (List.filter _ (scanLines MaxScanTokenSize [] (List.replicate n 'a')).1),
    (scanLines MaxScanTokenSize [] (List.replicate n 'a')).2) = _
  rw [scanLines_no_lf MaxScanTokenSize _ (replicate_no_lf n) [], List.nil_append,
    if_neg hne, emitLine, byteLen_replicate, if_pos hn]
  rfl

theorem Join_cons (a : String) (l : List String) (sep : String) (h : l ≠ []) :
    Join (a :: l) sep = a ++ sep ++ Join l sep := by
  cases l with
  | nil => exact absurd rfl h
  | cons b rest => rfl

theorem Join_lines (items : List String) :
    (Join (items ++ [""]) "\n").data = fileChars items := by
  induction items with
  | nil => rfl
  | cons a rest ih =>
    rw [List.cons_append, Join_cons _ _ _ (by simp), String.data_append,
      String.data_append, ih]
    have hlf : "\n".data = ['\n'] := rfl
    rw [hlf, fileChars]
    simp

theorem textLines_fileChars (ls : List String) (h : ∀ l ∈ ls, '\n' ∉ l.data) :
    textLines (fileChars ls) = ls.map String.data := by
  induction ls with
  | nil => rfl
  | cons l ls ih =>
    rw [fileChars, textLines_append_lf _ _ (h l (by simp)),
      ih (fun x hx => h x (List.mem_cons_of_mem _ hx))]
    rfl

theorem dropCR_of_no_cr (l : List Char) (h : l.getLast? ≠ some '\r') : dropCR l = l := by
  simp [dropCR, h]

theorem writeWhitelist_ok (fs : FS) (path header : String) (items : List String)
    (h : (writeWhitelist fs path header items).2 = none) :
    path ≠ "" ∧
      (fs.writable (fs.fileOf path) = true ∧ fs.shortWrite (fs.fileOf path) = none) ∧
      (writeWhitelist fs path header items).1 =
        fs.put (fs.fileOf path)
          (FileState.readable (Join ([header] ++ items ++ [""]) "\n")) := by
  unfold writeWhitelist WriteFile at h ⊢
  by_cases hc : path ≠ "" ∧ fs.writable (fs.fileOf path) = true
  · cases hs : fs.shortWrite (fs.fileOf path) with
    | none => simp [hc.1, hc.2, hs]
    | some n => simp [hc.1, hc.2, hs] at h
  · simp [hc] at h

theorem files_after_write (fs : FS) (path header : String) (items : List String)
    (h : (writeWhitelist fs path header items).2 = none) :
    (writeWhitelist fs path header items).1.files path =
      some (Join ([header] ++ items ++ [""]) "\n") := by
  obtain ⟨-, -, hfs⟩ := writeWhitelist_ok fs path header items h
  rw [hfs]
  exact put_files_same fs _ path _ rfl

theorem writeWhitelist_shape (fs : FS) (path header : String) (items : List String) :
    (writeWhitelist fs path header items).1 = fs ∨
      ∃ n, (writeWhitelist fs path header items).1 =
        fs.put (fs.fileOf path) (FileState.readable
          (String.mk ((Join ([header] ++ items ++ [""]) "\n").data.take n))) := by
  unfold writeWhitelist WriteFile
  by_cases hc : path ≠ "" ∧ fs.writable (fs.fileOf path) = true
  · cases hs : fs.shortWrite (fs.fileOf path) with
    | none =>
      refine Or.inr ⟨(Join ([header] ++ items ++ [""]) "\n").data.length, ?_⟩
      rw [List.take_length]
      simp [hc.1, hc.2, hs]
    | some n =>
      refine Or.inr ⟨n, ?_⟩
      simp [hc.1, hc.2, hs]
  · exact Or.inl (by simp only [hc, if_false])

theorem files_other_write (fs : FS) (path header : String) (items : List String)
    (p : String) (hp : fs.fileOf p ≠ fs.fileOf path) :
    (writeWhitelist fs path header items).1.files p = fs.files p := by
  rcases writeWhitelist_shape fs path header items with h | ⟨n, h⟩
  · rw [h]
  · rw [h]
    exact put_files_other fs _ p _ hp

theorem writeWhitelist_static (fs : FS) (path header : String) (items : List String) :
    (writeWhitelist fs path header items).1.fileOf = fs.fileOf ∧
      (writeWhitelist fs path header items).1.writable = fs.writable ∧
      (writeWhitelist fs path header items).1.shortWrite = fs.shortWrite := by
  rcases writeWhitelist_shape fs path header items with h | ⟨n, h⟩
  · rw [h]; exact ⟨rfl, rfl, rfl⟩
  · rw [h]; exact ⟨rfl, rfl, rfl⟩

theorem load_listFile (fs : FS) (path header : String) (items : List String)
    (hpath : path ≠ "")
    (hfile : fs.files path = some (Join ([header] ++ items ++ [""]) "\n"))
    (hh : HasPrefix header "#" = true) (hhlf : '\n' ∉ header.data)
    (hhlen : byteLen header.data < MaxScanTokenSize)
    (hitems : ∀ i ∈ items, HasPrefix i "#" = false ∧ '\n' ∉ i.data ∧
      i.data.getLast? ≠ some '\r' ∧ byteLen i.data < MaxScanTokenSize) :
    loadWhitelist fs path = (some items, none) := by
  have hlines : textLines (Join ([header] ++ items ++ [""]) "\n").data =
      (header :: items).map String.data := by
    rw [Join_lines]
    apply textLines_fileChars
    intro l hl
    rcases List.mem_cons.1 hl with h | h
    · rw [h]; exact hhlf
    · exact (hitems l h).2.1
  rw [loadWhitelist_short_lines fs path _ hpath hfile]
  · rw [hlines]
    have hh2 : (['#'].isPrefixOf header.data) = true := hh
    have hfilter : (items.map String.data).filter (fun l => !(['#'].isPrefixOf l)) =
        items.map String.data := by
      apply List.filter_eq_self.2
      intro l hl
      rcases List.mem_map.1 hl with ⟨i, hi, rfl⟩
      have : (['#'].isPrefixOf i.data) = false := (hitems i hi).1
      simp [this]
    rw [List.map_cons, List.filter_cons]
    simp only [hh2, Bool.not_true, Bool.false_eq_true, if_false]
    rw [hfilter, List.map_map]
    congr 1
    congr 1
    conv_rhs => rw [← List.map_id items]
    apply List.map_congr_left
    intro i hi
    simp [Function.comp, dropCR_of_no_cr _ (hitems i hi).2.2.1]
  · rw [hlines]
    intro l hl
    rcases List.mem_map.1 hl with ⟨i, hi, rfl⟩
    rcases List.mem_cons.1 hi with h | h
    · rw [h]; exact hhlen
    · exact (hitems i h).2.2.2

theorem long_item_roundtrip (n : Nat) (hn : MaxScanTokenSize ≤ n) :
    (writeWhitelist (oneFile "w" "") "w" "# h" [String.mk (List.replicate n 'a')]).2 = none ∧
      loadWhitelist
        (writeWhitelist (oneFile "w" "") "w" "# h" [String.mk (List.replicate n 'a')]).1 "w" ≠
        (some [String.mk (List.replicate n 'a')], none) := by
  have hw : (writeWhitelist (oneFile "w" "") "w" "# h"
      [String.mk (List.replicate n 'a')]).2 = none := rfl
  refine ⟨hw, ?_⟩
  obtain ⟨hpath, -, -⟩ := writeWhitelist_ok _ _ _ _ hw
  have hfile : (writeWhitelist (oneFile "w" "") "w" "# h"
      [String.mk (List.replicate n 'a')]).1.files "w" =
      some (Join (["# h"] ++ [String.mk (List.replicate n 'a')] ++ [""]) "\n") :=
    files_after_write _ _ _ _ hw
  intro h
  rw [loadWhitelist_of_file _ _ _ hpath hfile, Join_lines] at h
  have h2 := congrArg Prod.snd h
  have hscan : (scanLines MaxScanTokenSize []
      (fileChars (["# h"] ++ [String.mk (List.replicate n 'a')]))).2 =
      some GoError.ErrTooLong := by
    show (scanLines MaxScanTokenSize []
      ("# h".data ++ '\n' :: (List.replicate n 'a' ++ '\n' :: []))).2 = _
    rw [scanLines_line _ _ _ (by decide), scanLines_line _ _ _ (replicate_no_lf n),
      List.nil_append, List.nil_append]
    have hshort : ¬ MaxScanTokenSize ≤ byteLen "# h".data := by decide
    rw [emitLine, if_neg hshort, emitLine, byteLen_replicate, if_pos hn]
  rw [show ((some (List.filter (fun t => !HasPrefix t "#") (scanLines MaxScanTokenSize []
      (fileChars (["# h"] ++ [String.mk (List.replicate n 'a')]))).1),
      (scanLines MaxScanTokenSize []
      (fileChars (["# h"] ++ [String.mk (List.replicate n 'a')]))).2) :
      Option (List String) × Option GoError).2 = (scanLines MaxScanTokenSize []
      (fileChars (["# h"] ++ [String.mk (List.replicate n 'a')]))).2 from rfl, hscan] at h2
  exact absurd h2 (by intro h3; cases h3)

/-- C7 (as stated, refuted): after a successful `writeWhitelist` with a header that
begins with `#`, `loadWhitelist` does not return the items when an item begins with
`#`, holds a line feed, ends with a carriage return or is 64 KiB long, nor when the
header holds a line feed. -/
theorem writeWhitelist_loadWhitelist_counterexample :
    (HasPrefix "# h" "#" = true ∧
      (writeWhitelist (oneFile "w" "") "w" "# h" ["#x"]).2 = none ∧
      loadWhitelist (writeWhitelist (oneFile "w" "") "w" "# h" ["#x"]).1 "w" ≠
        (some ["#x"], none)) ∧
    ((writeWhitelist (oneFile "w" "") "w" "# h" ["a\nb"]).2 = none ∧
      loadWhitelist (writeWhitelist (oneFile "w" "") "w" "# h" ["a\nb"]).1 "w" ≠
        (some ["a\nb"], none)) ∧
    ((writeWhitelist (oneFile "w" "") "w" "# h" ["a\r"]).2 = none ∧
      loadWhitelist (writeWhitelist (oneFile "w" "") "w" "# h" ["a\r"]).1 "w" ≠
        (some ["a\r"], none)) ∧
    (HasPrefix "#h\nx" "#" = true ∧
      (writeWhitelist (oneFile "w" "") "w" "#h\nx" []).2 = none ∧
      loadWhitelist (writeWhitelist (oneFile "w" "") "w" "#h\nx" []).1 "w" ≠
        (some [], none)) ∧
    ((writeWhitelist (oneFile "w" "") "w" "# h"
        [String.mk (List.replicate 65536 'a')]).2 = none ∧
      loadWhitelist (writeWhitelist (oneFile "w" "") "w" "# h"
        [String.mk (List.replicate 65536 'a')]).1 "w" ≠
        (some [String.mk (List.replicate 65536 'a')], none)) :=
  ⟨by decide, by decide, by decide, by decide, long_item_roundtrip 65536 (by decide)⟩

/-- C7 (amended): for every path, every header that begins with `#`, holds no line
feed and is shorter than 64 KiB, and every list of items none of which begins with
`#`, holds a line feed, ends with a carriage return or is 64 KiB long or longer, a
successful `writeWhitelist` followed by `loadWhitelist` of the same path returns
exactly the items, in order, and no error. -/
theorem writeWhitelist_loadWhitelist_roundtrip (fs : FS) (path header : String)
    (items : List String)
    (hh : HasPrefix header "#" = true) (hhlf : '\n' ∉ header.data)
    (hhlen : byteLen header.data < MaxScanTokenSize)
    (hitems : ∀ i ∈ items, HasPrefix i "#" = false ∧ '\n' ∉ i.data ∧
      i.data.getLast? ≠ some '\r' ∧ byteLen i.data < MaxScanTokenSize)
    (hw : (writeWhitelist fs path header items).2 = none) :
    loadWhitelist (writeWhitelist fs path header items).1 path = (some items, none) := by
  obtain ⟨hpath, -, -⟩ := writeWhitelist_ok fs path header items hw
  exact load_listFile _ path header items hpath (files_after_write fs path header items hw)
    hh hhlf hhlen hitems

theorem writeWhitelist_loadWhitelist_roundtrip_witness :
    loadWhitelist (writeWhitelist (oneFile "w" "old") "w" "# h" ["alice", "", "bob"]).1 "w" =
      (some ["alice", "", "bob"], none) :=
  writeWhitelist_loadWhitelist_roundtrip (oneFile "w" "old") "w" "# h" ["alice", "", "bob"]
    (by decide) (by decide) (by decide) (by decide) (by decide)

/-- C8 (as stated, refuted): the list returned by `loadWhitelist` is not always the
list of the lines that do not begin with `#` with their text as it stands. A line
ended by a carriage return and a line feed is returned without the carriage return,
and for a file holding a line of 64 KiB the call returns an error. -/
theorem loadWhitelist_lines_counterexample :
    loadWhitelist (oneFile "w" "bob\r\n") "w" ≠ (some (nonCommentLines "bob\r\n"), none) ∧
    loadWhitelist (oneFile "w" (String.mk (List.replicate 65536 'a'))) "w" ≠
      (some (nonCommentLines (String.mk (List.replicate 65536 'a'))), none) := by
  refine ⟨by decide, ?_⟩
  rw [long_line_file (oneFile "w" (String.mk (List.replicate 65536 'a'))) "w" 65536
    (by decide) rfl (by decide)]
  intro h
  have h2 : some GoError.ErrTooLong = none := congrArg Prod.snd h
  cases h2

/-- C8 (amended): for every readable file, that is one that opens and is read to its
end without an I/O error, that has no line of 64 KiB or more, `loadWhitelist` returns
the lines of the file that do not begin with `#`, in file order, each with its text
unchanged except that one carriage return at the end of the line is removed; nothing
is trimmed or validated otherwise and no other line is dropped. -/
theorem loadWhitelist_returns_lines (fs : FS) (path content : String) (hpath : path ≠ "")
    (hfile : fs.files path = some content)
    (hshort : ∀ l ∈ textLines content.data, byteLen l < MaxScanTokenSize) :
    loadWhitelist fs path =
      (some (((textLines content.data).filter (fun l => !(['#'].isPrefixOf l))).map
        (fun l => String.mk (dropCR l))), none) :=
  loadWhitelist_short_lines fs path content hpath hfile hshort

theorem loadWhitelist_returns_lines_witness :
    loadWhitelist (oneFile "w" "#c\n alice \r\n\nbob") "w" =
      (some [" alice ", "", "bob"], none) :=
  loadWhitelist_returns_lines (oneFile "w" "#c\n alice \r\n\nbob") "w"
    "#c\n alice \r\n\nbob" (by decide) (by decide) (by decide)

/-- C9 (as stated, refuted): the file whose lines are `# header`, `alice`, `bob`, the
empty line and `carol` does not load as `alice`, `bob`, `carol`: the empty line is
returned as an entry. -/
theorem loadWhitelist_blank_counterexample :
    textLines "# header\nalice\nbob\n\ncarol\n".data =
        ["# header".data, "alice".data, "bob".data, "".data, "carol".data] ∧
      loadWhitelist (oneFile "whitelist.txt" "# header\nalice\nbob\n\ncarol\n")
        "whitelist.txt" ≠ (some ["alice", "bob", "carol"], none) ∧
      (loadWhitelist (oneFile "whitelist.txt" "# header\nalice\nbob\n\ncarol\n")
        "whitelist.txt").1 = some ["alice", "bob", "", "carol"] := by
  decide

/-- C9 (amended): the file whose lines are `# header`, `alice`, `bob`, the empty line
and `carol` loads as `alice`, `bob`, the empty string, `carol`; in general, for a file
that can be opened and has no line of 64 KiB or more, every line that does not begin
with `#`, empty or not, is returned (without one final carriage return), so a file
with an empty line makes `loadWhitelist` return the empty string as an entry. -/
theorem loadWhitelist_blank_lines (fs : FS) (path content : String) (hpath : path ≠ "")
    (hfile : fs.files path = some content)
    (hshort : ∀ l ∈ textLines content.data, byteLen l < MaxScanTokenSize) :
    loadWhitelist (oneFile "whitelist.txt" "# header\nalice\nbob\n\ncarol\n")
        "whitelist.txt" = (some ["alice", "bob", "", "carol"], none) ∧
      ∃ users, loadWhitelist fs path = (some users, none) ∧
        (∀ l ∈ textLines content.data, (['#'].isPrefixOf l) = false →
          String.mk (dropCR l) ∈ users) ∧
        ([] ∈ textLines content.data → "" ∈ users) := by
  refine ⟨by decide, _, loadWhitelist_short_lines fs path content hpath hfile hshort, ?_, ?_⟩
  · intro l hl hp
    exact List.mem_map.2 ⟨l, List.mem_filter.2 ⟨hl, by simp [hp]⟩, rfl⟩
  · intro hblank
    exact List.mem_map.2 ⟨[], List.mem_filter.2 ⟨hblank, by decide⟩, by decide⟩

theorem loadWhitelist_blank_lines_witness :
    ∃ users, loadWhitelist (oneFile "w" "alice\n\n") "w" = (some users, none) ∧
      (∀ l ∈ textLines "alice\n\n".data, (['#'].isPrefixOf l) = false →
        String.mk (dropCR l) ∈ users) ∧
      ([] ∈ textLines "alice\n\n".data → "" ∈ users) :=
  (loadWhitelist_blank_lines (oneFile "w" "alice\n\n") "w" "alice\n\n"
    (by decide) (by decide) (by decide)).2

/-- C10: whatever the file system, `loadWhitelist` of the empty path returns the empty
list and no error, the same for every file system (no file is read); and for a
non-empty path that cannot be opened it returns no list and the error of the open. -/
theorem loadWhitelist_empty_path_and_open_error (fs : FS) (path : String) (err : GoError)
    (hpath : path ≠ "") (hopen : osOpen fs path = Except.error err) :
    loadWhitelist fs "" = (some [], none) ∧
      (∀ fs2 : FS, loadWhitelist fs2 "" = loadWhitelist fs "") ∧
      loadWhitelist fs path = (none, some err) := by
  refine ⟨by simp [loadWhitelist], fun fs2 => by simp [loadWhitelist], ?_⟩
  unfold loadWhitelist
  rw [if_neg hpath, hopen]

theorem loadWhitelist_empty_path_and_open_error_witness :
    loadWhitelist (oneFile "w" "alice\n") "" = (some [], none) ∧
      (∀ fs2 : FS, loadWhitelist fs2 "" = loadWhitelist (oneFile "w" "alice\n") "") ∧
      loadWhitelist (oneFile "w" "alice\n") "missing" =
        (none, some (GoError.PathError "open" "missing")) :=
  loadWhitelist_empty_path_and_open_error (oneFile "w" "alice\n") "missing"
    (GoError.PathError "open" "missing") (by decide) rfl

/-! ## doGenCommitters -/

theorem doGenCommitters_ok (config : SubmitQueueConfig) (arg0 : String) (c : List String)
    (fs : FS) (h : (doGenCommitters config arg0 (Except.ok c) fs).2 = Except.ok ()) :
    (writeWhitelist fs config.Committers (committersHeader arg0) c).2 = none ∧
    (loadWhitelist (writeWhitelist fs config.Committers (committersHeader arg0) c).1
      config.Whitelist).2 = none ∧
    (writeWhitelist (writeWhitelist fs config.Committers (committersHeader arg0) c).1
      config.Whitelist (whitelistHeader arg0)
      (dedupUsers c ((loadWhitelist
        (writeWhitelist fs config.Committers (committersHeader arg0) c).1
        config.Whitelist).1.getD []))).2 = none ∧
    (doGenCommitters config arg0 (Except.ok c) fs).1 =
      (writeWhitelist (writeWhitelist fs config.Committers (committersHeader arg0) c).1
        config.Whitelist (whitelistHeader arg0)
        (dedupUsers c ((loadWhitelist
          (writeWhitelist fs config.Committers (committersHeader arg0) c).1
          config.Whitelist).1.getD []))).1 := by
  rcases hw1 : writeWhitelist fs config.Committers (committersHeader arg0) c with ⟨fs1, e1⟩
  rcases hld : loadWhitelist fs1 config.Whitelist with ⟨users, e2⟩
  rcases hw2 : writeWhitelist fs1 config.Whitelist (whitelistHeader arg0)
    (dedupUsers c (users.getD [])) with ⟨fs2, e3⟩
  cases e1 <;> cases e2 <;> cases e3 <;>
    simp [doGenCommitters, hw1, hld, hw2] at h ⊢

theorem doGenCommitters_load_error (config : SubmitQueueConfig) (arg0 : String)
    (c : List String) (fs fs1 : FS) (users : Option (List String)) (e : GoError)
    (hw1 : writeWhitelist fs config.Committers (committersHeader arg0) c = (fs1, none))
    (hld : loadWhitelist fs1 config.Whitelist = (users, some e)) :
    (doGenCommitters config arg0 (Except.ok c) fs).1 = fs1 := by
  simp [doGenCommitters, hw1, hld]

theorem doGenCommitters_loaded (config : SubmitQueueConfig) (arg0 : String)
    (c : List String) (fs fs1 : FS) (users : Option (List String))
    (hw1 : writeWhitelist fs config.Committers (committersHeader arg0) c = (fs1, none))
    (hld : loadWhitelist fs1 config.Whitelist = (users, none)) :
    (doGenCommitters config arg0 (Except.ok c) fs).1 =
      (writeWhitelist fs1 config.Whitelist (whitelistHeader arg0)
        (dedupUsers c (users.getD []))).1 := by
  rcases hw2 : writeWhitelist fs1 config.Whitelist (whitelistHeader arg0)
    (dedupUsers c (users.getD [])) with ⟨fs2, e3⟩
  cases e3 <;> simp [doGenCommitters, hw1, hld, hw2]

theorem writeWhitelist_succeeds (fs : FS) (path header : String) (items : List String)
    (hp : path ≠ "") (hw : fs.writable (fs.fileOf path) = true)
    (hs : fs.shortWrite (fs.fileOf path) = none) :
    writeWhitelist fs path header items =
      (fs.put (fs.fileOf path)
        (FileState.readable (Join ([header] ++ items ++ [""]) "\n")), none) := by
  simp [writeWhitelist, WriteFile, hp, hw, hs]

theorem put_self (fs : FS) (f : String) (st : FileState) (h : fs.state f = st) :
    fs.put f st = fs := by
  cases fs with
  | mk fileOf state writable shortWrite =>
    simp only [FS.put, FS.mk.injEq, true_and, and_true]
    funext g
    by_cases hg : g = f
    · simp [hg]; exact h.symm
    · simp [hg]

theorem put_put (fs : FS) (f : String) (a b : FileState) :
    (fs.put f a).put f b = fs.put f b := by
  simp only [FS.put, FS.mk.injEq, true_and, and_true]
  funext g
  by_cases hg : g = f
  · simp [hg]
  · simp [hg]

theorem keptEntries_mem_users (c : List String) (users : List String) :
    ∀ (earlier : List String) (u : String), u ∈ keptEntries c earlier users → u ∈ users := by
  induction users with
  | nil => intro earlier u h; simp [keptEntries] at h
  | cons a rest ih =>
    intro earlier u h
    unfold keptEntries at h
    split at h
    · exact List.mem_cons_of_mem _ (ih _ u h)
    · rcases List.mem_cons.1 h with h | h
      · subst h; exact List.mem_cons_self _ _
      · exact List.mem_cons_of_mem _ (ih _ u h)

theorem keptEntries_not_mem_earlier (c : List String) (users : List String) :
    ∀ (earlier : List String) (u : String),
      u ∈ keptEntries c earlier users → u ∉ earlier := by
  induction users with
  | nil => intro earlier u h; simp [keptEntries] at h
  | cons a rest ih =>
    intro earlier u h
    unfold keptEntries at h
    split at h
    · exact fun he => ih _ u h (List.mem_append_left _ he)
    · rename_i hn
      rcases List.mem_cons.1 h with h | h
      · subst h; exact fun he => hn (Or.inr he)
      · exact fun he => ih _ u h (List.mem_append_left _ he)

theorem keptEntries_nodup (c : List String) (users : List String) :
    ∀ earlier : List String, (keptEntries c earlier users).Nodup := by
  induction users with
  | nil => intro earlier; simp [keptEntries]
  | cons a rest ih =>
    intro earlier
    unfold keptEntries
    split
    · exact ih _
    · refine List.nodup_cons.2 ⟨?_, ih _⟩
      intro h
      exact keptEntries_not_mem_earlier c rest _ a h (by simp)

theorem keptEntries_fixed (c : List String) (l : List String) :
    ∀ earlier : List String, l.Nodup → (∀ u ∈ l, u ∉ c ∧ u ∉ earlier) →
      keptEntries c earlier l = l := by
  induction l with
  | nil => intro earlier _ _; simp [keptEntries]
  | cons a rest ih =>
    intro earlier hnd h
    have ha := h a (List.mem_cons_self _ _)
    have hnd2 := List.nodup_cons.1 hnd
    unfold keptEntries
    rw [if_neg (by intro hc; rcases hc with hc | hc; exact ha.1 hc; exact ha.2 hc)]
    rw [ih (earlier ++ [a]) hnd2.2]
    intro u hu
    have hu2 := h u (List.mem_cons_of_mem _ hu)
    refine ⟨hu2.1, ?_⟩
    intro hm
    rcases List.mem_append.1 hm with hm | hm
    · exact hu2.2 hm
    · rw [List.mem_singleton] at hm
      subst hm
      exact hnd2.1 hu

theorem dedupUsers_idem (c users : List String) :
    dedupUsers c (dedupUsers c users) = dedupUsers c users := by
  rw [dedupUsers_eq_keptEntries c users, dedupUsers_eq_keptEntries]
  apply keptEntries_fixed c _ [] (keptEntries_nodup c users [])
  intro u hu
  exact ⟨keptEntries_not_mem c users [] u hu, by simp⟩

theorem mem_dropCR (l : List Char) (x : Char) (h : x ∈ dropCR l) : x ∈ l := by
  unfold dropCR at h
  split at h
  · exact List.dropLast_subset l h
  · exact h

theorem byteLen_dropLast_le (l : List Char) : byteLen l.dropLast ≤ byteLen l := by
  induction l with
  | nil => simp [byteLen]
  | cons c t ih =>
    cases t with
    | nil => simp [byteLen]
    | cons d t =>
      rw [List.dropLast_cons₂, byteLen, byteLen]
      exact Nat.add_le_add_left ih _

theorem byteLen_dropCR_le (l : List Char) : byteLen (dropCR l) ≤ byteLen l := by
  unfold dropCR
  split
  · exact byteLen_dropLast_le l
  · exact Nat.le_refl _

theorem emitLine_tokens (max : Nat) (line : List Char) (k : List String × Option GoError)
    (hline : '\n' ∉ line)
    (hk : ∀ t ∈ k.1, '\n' ∉ t.data ∧ byteLen t.data < max) :
    ∀ t ∈ (emitLine max line k).1, '\n' ∉ t.data ∧ byteLen t.data < max := by
  intro t ht
  unfold emitLine at ht
  split at ht
  · simp at ht
  · rename_i hlen
    rcases List.mem_cons.1 ht with h | h
    · subst h
      exact ⟨fun hm => hline (mem_dropCR line _ hm),
        Nat.lt_of_le_of_lt (byteLen_dropCR_le line) (Nat.not_le.1 hlen)⟩
    · exact hk t h

theorem scanLines_tokens (max : Nat) (data : List Char) :
    ∀ cur : List Char, '\n' ∉ cur →
      ∀ t ∈ (scanLines max cur data).1, '\n' ∉ t.data ∧ byteLen t.data < max := by
  induction data with
  | nil =>
    intro cur hcur t ht
    unfold scanLines at ht
    split at ht
    · simp at ht
    · exact emitLine_tokens max cur _ hcur (by simp) t ht
  | cons c cs ih =>
    intro cur hcur t ht
    unfold scanLines at ht
    split at ht
    · exact emitLine_tokens max cur _ hcur (ih [] (by simp)) t ht
    · rename_i hc
      refine ih (cur ++ [c]) ?_ t ht
      simp only [List.mem_append, List.mem_singleton, not_or]
      exact ⟨hcur, fun e => hc e.symm⟩

theorem loadWhitelist_entries (fs : FS) (path : String) (U : List String)
    (h : (loadWhitelist fs path).1 = some U) :
    ∀ u ∈ U, HasPrefix u "#" = false ∧ '\n' ∉ u.data ∧
      byteLen u.data < MaxScanTokenSize := by
  by_cases hp : path = ""
  · subst hp
    have hU : U = [] := by
      simp [loadWhitelist] at h
      exact h
    subst hU
    intro u hu
    simp at hu
  · have hkey : ∀ content : String,
        some ((scanLines MaxScanTokenSize [] content.data).1.foldl
          (fun result current =>
            if !HasPrefix current "#" then result ++ [current] else result) []) = some U →
        ∀ u ∈ U, HasPrefix u "#" = false ∧ '\n' ∉ u.data ∧
          byteLen u.data < MaxScanTokenSize := by
      intro content hc u hu
      rw [filter_loop, List.nil_append] at hc
      have hU : U = (scanLines MaxScanTokenSize [] content.data).1.filter
          (fun t => !HasPrefix t "#") := (Option.some.inj hc).symm
      rw [hU] at hu
      obtain ⟨hmem, hpre⟩ := List.mem_filter.1 hu
      have htok := scanLines_tokens MaxScanTokenSize content.data [] (by simp) u hmem
      refine ⟨?_, htok.1, htok.2⟩
      simpa using hpre
    cases hf : fs.state (fs.fileOf path) with
    | absent => simp [loadWhitelist, osOpen, hp, hf] at h
    | readable content =>
      unfold loadWhitelist osOpen at h
      simp only [hp, if_false, hf] at h
      exact hkey content h
    | faulty delivered err =>
      unfold loadWhitelist osOpen at h
      simp only [hp, if_false, hf] at h
      exact hkey delivered h

theorem load_long_header (fs : FS) (path header : String) (items : List String)
    (hpath : path ≠ "")
    (hfile : fs.files path = some (Join ([header] ++ items ++ [""]) "\n"))
    (hlf : '\n' ∉ header.data) (hlong : MaxScanTokenSize ≤ byteLen header.data) :
    loadWhitelist fs path = (some [], some GoError.ErrTooLong) := by
  rw [loadWhitelist_of_file fs path _ hpath hfile, Join_lines]
  have hchars : fileChars ([header] ++ items) = header.data ++ '\n' :: fileChars items := rfl
  rw [hchars, scanLines_line _ _ _ hlf, List.nil_append, emitLine, if_pos hlong]
  rfl

theorem whitelistHeader_no_lf (arg0 : String) (h : '\n' ∉ arg0.data) :
    '\n' ∉ (whitelistHeader arg0).data := by
  unfold whitelistHeader
  rw [String.data_append, String.data_append]
  simp only [List.mem_append, not_or]
  exact ⟨⟨by decide, h⟩, by decide⟩

theorem whitelistHeader_hasPrefix (arg0 : String) :
    HasPrefix (whitelistHeader arg0) "#" = true := by
  unfold HasPrefix whitelistHeader
  rw [String.data_append, String.data_append]
  have h1 : "# remove dups with ".data = '#' :: " remove dups with ".data := rfl
  have h2 : "#".data = ['#'] := rfl
  rw [h1, h2]
  simp [List.isPrefixOf]

/-- C4: when `doGenCommitters` succeeds with the fetched list `C` and `U` is the list
it loaded from the override file, the override file it writes back holds, after the
header, exactly the entries of `U` that are not in `C`, each at its first occurrence
only and in their order; for `C = [alice, bob]` and `U = [alice, carol, carol]` the
loop keeps exactly `[carol]`. -/
theorem doGenCommitters_override_written (config : SubmitQueueConfig) (arg0 : String)
    (C U : List String) (fs : FS)
    (hrun : (doGenCommitters config arg0 (Except.ok C) fs).2 = Except.ok ())
    (hload : (loadWhitelist (writeWhitelist fs config.Committers (committersHeader arg0) C).1
      config.Whitelist).1 = some U) :
    (doGenCommitters config arg0 (Except.ok C) fs).1.files config.Whitelist =
        some (Join ([whitelistHeader arg0] ++ keptEntries C [] U ++ [""]) "\n") ∧
      dedupUsers C U = keptEntries C [] U ∧
      dedupUsers ["alice", "bob"] ["alice", "carol", "carol"] = ["carol"] := by
  obtain ⟨-, -, h3, h4⟩ := doGenCommitters_ok config arg0 C fs hrun
  have hfile := files_after_write _ _ _ _ h3
  refine ⟨?_, dedupUsers_eq_keptEntries C U, by decide⟩
  rw [h4, hfile, hload]
  simp [dedupUsers_eq_keptEntries]

theorem doGenCommitters_override_written_witness :
    (doGenCommitters exampleConfig "submit-queue" (Except.ok ["alice", "bob"])
        exampleFS).1.files "whitelist.txt" =
      some "# remove dups with submit-queue gen-committers\ncarol\n" :=
  (doGenCommitters_override_written exampleConfig "submit-queue" ["alice", "bob"]
    ["alice", "carol", "carol"] exampleFS rfl (by decide)).1.trans (by decide)

/-- C5: after a successful run of `doGenCommitters` with the fetched list `C`, whatever
the override file held before, the override file holds the header and the list kept by
the de-duplication loop, and no entry of that list is a member of `C`. -/
theorem doGenCommitters_override_no_committer (config : SubmitQueueConfig) (arg0 : String)
    (C : List String) (fs : FS)
    (hrun : (doGenCommitters config arg0 (Except.ok C) fs).2 = Except.ok ()) :
    (doGenCommitters config arg0 (Except.ok C) fs).1.files config.Whitelist =
        some (Join ([whitelistHeader arg0] ++
          dedupUsers C ((loadWhitelist
            (writeWhitelist fs config.Committers (committersHeader arg0) C).1
            config.Whitelist).1.getD []) ++ [""]) "\n") ∧
      ∀ u ∈ dedupUsers C ((loadWhitelist
          (writeWhitelist fs config.Committers (committersHeader arg0) C).1
          config.Whitelist).1.getD []), u ∉ C := by
  obtain ⟨-, -, h3, h4⟩ := doGenCommitters_ok config arg0 C fs hrun
  have hfile := files_after_write _ _ _ _ h3
  refine ⟨?_, ?_⟩
  · rw [h4, hfile]
  · intro u hu
    rw [dedupUsers_eq_keptEntries] at hu
    exact keptEntries_not_mem C _ [] u hu

theorem doGenCommitters_override_no_committer_witness :
    (doGenCommitters exampleConfig "submit-queue" (Except.ok ["alice", "bob"])
        exampleFS).1.files exampleConfig.Whitelist =
        some (Join ([whitelistHeader "submit-queue"] ++
          dedupUsers ["alice", "bob"] ((loadWhitelist
            (writeWhitelist exampleFS exampleConfig.Committers
              (committersHeader "submit-queue") ["alice", "bob"]).1
            exampleConfig.Whitelist).1.getD []) ++ [""]) "\n") ∧
      ∀ u ∈ dedupUsers ["alice", "bob"] ((loadWhitelist
          (writeWhitelist exampleFS exampleConfig.Committers
            (committersHeader "submit-queue") ["alice", "bob"]).1
          exampleConfig.Whitelist).1.getD []), u ∉ ["alice", "bob"] :=
  doGenCommitters_override_no_committer exampleConfig "submit-queue" ["alice", "bob"]
    exampleFS rfl

theorem second_run (config : SubmitQueueConfig) (arg0 : String) (C : List String) (fs : FS)
    (hrun : (doGenCommitters config arg0 (Except.ok C) fs).2 = Except.ok ())
    (harg : '\n' ∉ arg0.data)
    (hcr : ∀ u ∈ dedupUsers C ((loadWhitelist
        (writeWhitelist fs config.Committers (committersHeader arg0) C).1
        config.Whitelist).1.getD []), u.data.getLast? ≠ some '\r') :
    (doGenCommitters config arg0 (Except.ok C)
      (doGenCommitters config arg0 (Except.ok C) fs).1).1 =
      (doGenCommitters config arg0 (Except.ok C) fs).1 := by
  obtain ⟨h1, h2, h3, h4⟩ := doGenCommitters_ok config arg0 C fs hrun
  obtain ⟨hCm, ⟨hCmw, hCms⟩, hfs1⟩ := writeWhitelist_ok _ _ _ _ h1
  obtain ⟨hW, ⟨hWw, hWs⟩, hfs2⟩ := writeWhitelist_ok _ _ _ _ h3
  rw [h4]
  have hprops : ∀ u ∈ (loadWhitelist
      (writeWhitelist fs config.Committers (committersHeader arg0) C).1
      config.Whitelist).1.getD [],
      HasPrefix u "#" = false ∧ '\n' ∉ u.data ∧ byteLen u.data < MaxScanTokenSize := by
    cases hl : (loadWhitelist
      (writeWhitelist fs config.Committers (committersHeader arg0) C).1
      config.Whitelist).1 with
    | none => intro u hu; simp at hu
    | some U' => exact loadWhitelist_entries _ _ U' hl
  generalize (writeWhitelist fs config.Committers (committersHeader arg0) C).1 = fs1 at *
  have hld1 : loadWhitelist fs1 config.Whitelist =
      ((loadWhitelist fs1 config.Whitelist).1, none) := Prod.ext rfl h2
  generalize (loadWhitelist fs1 config.Whitelist).1 = users at *
  generalize hN : dedupUsers C (users.getD []) = N at *
  generalize hfs2d : (writeWhitelist fs1 config.Whitelist (whitelistHeader arg0) N).1 =
    fs2 at *
  have hfo1 : fs1.fileOf = fs.fileOf := by rw [hfs1]; rfl
  have hwr1 : fs1.writable = fs.writable := by rw [hfs1]; rfl
  have hsw1 : fs1.shortWrite = fs.shortWrite := by rw [hfs1]; rfl
  have hfo2 : fs2.fileOf = fs.fileOf := by rw [hfs2, ← hfo1]; rfl
  have hwr2 : fs2.writable = fs.writable := by rw [hfs2, ← hwr1]; rfl
  have hsw2 : fs2.shortWrite = fs.shortWrite := by rw [hfs2, ← hsw1]; rfl
  rw [hfo1] at hfs2 hWw hWs
  rw [hwr1] at hWw
  rw [hsw1] at hWs
  have hw1 := writeWhitelist_succeeds fs2 config.Committers (committersHeader arg0) C hCm
    (by rw [hwr2, hfo2]; exact hCmw) (by rw [hsw2, hfo2]; exact hCms)
  rw [hfo2] at hw1
  by_cases hsame : fs.fileOf config.Committers = fs.fileOf config.Whitelist
  · have hfs1eq : fs2.put (fs.fileOf config.Committers)
        (FileState.readable (Join ([committersHeader arg0] ++ C ++ [""]) "\n")) = fs1 := by
      rw [hfs2, ← hsame, put_put, hfs1, put_put]
    rw [hfs1eq] at hw1
    rw [doGenCommitters_loaded config arg0 C fs2 fs1 _ hw1 hld1, hN]
    exact hfs2d
  · have hst : fs2.state (fs.fileOf config.Committers) =
        FileState.readable (Join ([committersHeader arg0] ++ C ++ [""]) "\n") := by
      rw [hfs2, hfs1]
      simp [FS.put, hsame]
    rw [put_self fs2 _ _ hst] at hw1
    have hfile2 : fs2.files config.Whitelist =
        some (Join ([whitelistHeader arg0] ++ N ++ [""]) "\n") := by
      rw [hfs2]
      exact put_files_same fs1 _ _ _ (by rw [hfo1])
    by_cases hlen : byteLen (whitelistHeader arg0).data < MaxScanTokenSize
    · have hitems : ∀ i ∈ N, HasPrefix i "#" = false ∧ '\n' ∉ i.data ∧
          i.data.getLast? ≠ some '\r' ∧ byteLen i.data < MaxScanTokenSize := by
        intro i hi
        have hiU : i ∈ users.getD [] := by
          rw [← hN, dedupUsers_eq_keptEntries] at hi
          exact keptEntries_mem_users C _ [] i hi
        have hp := hprops i hiU
        exact ⟨hp.1, hp.2.1, hcr i hi, hp.2.2⟩
      have hld := load_listFile fs2 config.Whitelist (whitelistHeader arg0) N hW hfile2
        (whitelistHeader_hasPrefix arg0) (whitelistHeader_no_lf arg0 harg) hlen hitems
      rw [doGenCommitters_loaded config arg0 C fs2 fs2 _ hw1 hld]
      have hidem : dedupUsers C ((some N : Option (List String)).getD []) = N := by
        rw [Option.getD_some, ← hN, dedupUsers_idem]
      rw [hidem, writeWhitelist_succeeds fs2 config.Whitelist _ _ hW
        (by rw [hwr2, hfo2]; exact hWw) (by rw [hsw2, hfo2]; exact hWs)]
      exact put_self fs2 _ _ (files_eq_some fs2 _ _ hfile2)
    · have hld := load_long_header fs2 config.Whitelist (whitelistHeader arg0) N hW hfile2
        (whitelistHeader_no_lf arg0 harg) (Nat.le_of_not_lt hlen)
      exact doGenCommitters_load_error config arg0 C fs2 fs2 _ _ hw1 hld

/-- C6 (as stated, refuted): a second run of `doGenCommitters` directly after a
successful first run, with the same answer of the commit-access source, can change the
override file. With an override line `bob` followed by two carriage returns the first
run writes `bob` with one carriage return and the second run writes `bob`; with a
program name holding a line feed the second run adds the tail of the header line as
an entry. -/
theorem doGenCommitters_idempotent_counterexample :
    ((doGenCommitters exampleConfig "submit-queue" (Except.ok ["alice"])
        carriageReturnFS).2 = Except.ok () ∧
      (doGenCommitters exampleConfig "submit-queue" (Except.ok ["alice"])
        carriageReturnFS).1.files "whitelist.txt" =
        some "# remove dups with submit-queue gen-committers\nbob\r\n" ∧
      (doGenCommitters exampleConfig "submit-queue" (Except.ok ["alice"])
        (doGenCommitters exampleConfig "submit-queue" (Except.ok ["alice"])
          carriageReturnFS).1).1.files "whitelist.txt" =
        some "# remove dups with submit-queue gen-committers\nbob\n") ∧
    ((doGenCommitters exampleConfig "a\nb" (Except.ok ["alice"]) exampleFS).2 =
        Except.ok () ∧
      (doGenCommitters exampleConfig "a\nb" (Except.ok ["alice"])
        exampleFS).1.files "whitelist.txt" =
        some "# remove dups with a\nb gen-committers\ncarol\n" ∧
      (doGenCommitters exampleConfig "a\nb" (Except.ok ["alice"])
        (doGenCommitters exampleConfig "a\nb" (Except.ok ["alice"])
          exampleFS).1).1.files "whitelist.txt" =
        some "# remove dups with a\nb gen-committers\nb gen-committers\ncarol\n") :=
  ⟨⟨rfl, by decide, by decide⟩, ⟨rfl, by decide, by decide⟩⟩

/-- C6 (amended): for every answer `C` of the commit-access source and every initial
file system, when the program name `os.Args[0]` holds no line feed and no entry of the
override list written by a successful first run ends with a carriage return, running
`doGenCommitters` a second time directly afterwards leaves the committers file, the
override file and every other file with exactly the contents they had after the first
run. -/
theorem doGenCommitters_idempotent (config : SubmitQueueConfig) (arg0 : String)
    (C : List String) (fs : FS)
    (hrun : (doGenCommitters config arg0 (Except.ok C) fs).2 = Except.ok ())
    (harg : '\n' ∉ arg0.data)
    (hcr : ∀ u ∈ dedupUsers C ((loadWhitelist
        (writeWhitelist fs config.Committers (committersHeader arg0) C).1
        config.Whitelist).1.getD []), u.data.getLast? ≠ some '\r') :
    (doGenCommitters config arg0 (Except.ok C)
        (doGenCommitters config arg0 (Except.ok C) fs).1).1.files config.Committers =
        (doGenCommitters config arg0 (Except.ok C) fs).1.files config.Committers ∧
      (doGenCommitters config arg0 (Except.ok C)
        (doGenCommitters config arg0 (Except.ok C) fs).1).1.files config.Whitelist =
        (doGenCommitters config arg0 (Except.ok C) fs).1.files config.Whitelist ∧
      (doGenCommitters config arg0 (Except.ok C)
        (doGenCommitters config arg0 (Except.ok C) fs).1).1 =
        (doGenCommitters config arg0 (Except.ok C) fs).1 := by
  have h := second_run config arg0 C fs hrun harg hcr
  exact ⟨by rw [h], by rw [h], h⟩

theorem doGenCommitters_idempotent_witness :
    (doGenCommitters exampleConfig "submit-queue" (Except.ok ["alice", "bob"])
        (doGenCommitters exampleConfig "submit-queue" (Except.ok ["alice", "bob"])
          exampleFS).1).1.files exampleConfig.Committers =
        (doGenCommitters exampleConfig "submit-queue" (Except.ok ["alice", "bob"])
          exampleFS).1.files exampleConfig.Committers ∧
      (doGenCommitters exampleConfig "submit-queue" (Except.ok ["alice", "bob"])
        (doGenCommitters exampleConfig "submit-queue" (Except.ok ["alice", "bob"])
          exampleFS).1).1.files exampleConfig.Whitelist =
        (doGenCommitters exampleConfig "submit-queue" (Except.ok ["alice", "bob"])
          exampleFS).1.files exampleConfig.Whitelist ∧
      (doGenCommitters exampleConfig "submit-queue" (Except.ok ["alice", "bob"])
        (doGenCommitters exampleConfig "submit-queue" (Except.ok ["alice", "bob"])
          exampleFS).1).1 =
        (doGenCommitters exampleConfig "submit-queue" (Except.ok ["alice", "bob"])
          exampleFS).1 :=
  doGenCommitters_idempotent exampleConfig "submit-queue" ["alice", "bob"] exampleFS
    rfl (by decide) (by decide)

/-! ## Further properties -/

theorem keptEntries_mem_iff (c : List String) (users : List String) :
    ∀ (earlier : List String) (u : String),
      u ∈ keptEntries c earlier users ↔ u ∈ users ∧ u ∉ c ∧ u ∉ earlier := by
  induction users with
  | nil => intro earlier u; simp [keptEntries]
  | cons a rest ih =>
    intro earlier u
    constructor
    · intro h
      exact ⟨keptEntries_mem_users c _ earlier u h, keptEntries_not_mem c _ earlier u h,
        keptEntries_not_mem_earlier c _ earlier u h⟩
    · rintro ⟨hu, hc, he⟩
      have hrest : u ≠ a → u ∈ keptEntries c (earlier ++ [a]) rest := by
        intro hne
        refine (ih (earlier ++ [a]) u).2 ⟨?_, hc, ?_⟩
        · rcases List.mem_cons.1 hu with h | h
          · exact absurd h hne
          · exact h
        · simp only [List.mem_append, List.mem_singleton, not_or]
          exact ⟨he, hne⟩
      unfold keptEntries
      split
      · rename_i hin
        apply hrest
        intro hua
        subst hua
        rcases hin with h | h
        · exact hc h
        · exact he h
      · by_cases hua : u = a
        · subst hua; exact List.mem_cons_self _ _
        · exact List.mem_cons_of_mem _ (hrest hua)

/-- C13: a successful `writeWhitelist(path, header, items)` leaves the file `path` with
the `"\n"`-join of the header, the items in order and a final empty string, that is the
header and every item each on a line of its own ended by a line feed, whatever the file
held before; no path that names another file changes. -/
theorem writeWhitelist_content (fs : FS) (path header : String) (items : List String)
    (hw : (writeWhitelist fs path header items).2 = none) :
    (writeWhitelist fs path header items).1.files path =
        some (Join ([header] ++ items ++ [""]) "\n") ∧
      (Join ([header] ++ items ++ [""]) "\n").data = fileChars (header :: items) ∧
      ∀ p, fs.fileOf p ≠ fs.fileOf path →
        (writeWhitelist fs path header items).1.files p = fs.files p :=
  ⟨files_after_write fs path header items hw, Join_lines (header :: items),
    fun p hp => files_other_write fs path header items p hp⟩

theorem writeWhitelist_content_witness :
    (writeWhitelist (oneFile "w" "old content") "w" "# h" ["alice", "bob"]).1.files "w" =
      some "# h\nalice\nbob\n" :=
  (writeWhitelist_content (oneFile "w" "old content") "w" "# h" ["alice", "bob"]
    (by decide)).1.trans (by decide)

/-- C16: `RefreshWhitelist` computes the allow-set from scratch. Two configurations with
the same additional whitelist and the same fallback list, whatever their stored
allow-sets, give the same set for the same answer of the commit-access source; and a
username of the stored allow-set that is neither in the additional whitelist nor in
the list used for this call (the fetched one, or the fallback one on failure) is not
in the new set. -/
theorem RefreshWhitelist_from_scratch (c1 c2 : SubmitQueueConfig)
    (UsersWithCommit : Except GoError (List String))
    (hW : c1.additionalUserWhitelist = c2.additionalUserWhitelist)
    (hF : c1.committerList = c2.committerList) :
    (RefreshWhitelist c1 UsersWithCommit).1 = (RefreshWhitelist c2 UsersWithCommit).1 ∧
      ∀ u, u ∈ c1.userWhitelist → u ∉ c1.additionalUserWhitelist →
        u ∉ (match UsersWithCommit with
          | Except.ok S => S
          | Except.error _ => c1.committerList) →
        u ∉ (RefreshWhitelist c1 UsersWithCommit).1 := by
  cases UsersWithCommit with
  | error e =>
    refine ⟨by simp [RefreshWhitelist, hW, hF], ?_⟩
    intro u _ h1 h2
    simp [RefreshWhitelist, StringSet.mem_Insert, h1] 
    exact h2
  | ok S =>
    refine ⟨by simp [RefreshWhitelist, hW], ?_⟩
    intro u _ h1 h2
    simp [RefreshWhitelist, StringSet.mem_Insert, h1]
    exact h2

theorem RefreshWhitelist_from_scratch_witness :
    (RefreshWhitelist staleConfig (Except.ok ["bob"])).1 =
        (RefreshWhitelist exampleConfig (Except.ok ["bob"])).1 ∧
      "mallory" ∉ (RefreshWhitelist staleConfig (Except.ok ["bob"])).1 :=
  ⟨(RefreshWhitelist_from_scratch staleConfig exampleConfig (Except.ok ["bob"]) rfl rfl).1,
    (RefreshWhitelist_from_scratch staleConfig exampleConfig (Except.ok ["bob"]) rfl rfl).2
      "mallory" (by decide) (by decide) (by decide)⟩

/-- C18: after `RefreshWhitelist`, whatever the configuration and the answer of the
commit-access source, the stored allow-set `userWhitelist` is the returned set and the
additional whitelist, the fallback list, the two file paths and the override label are
as before. -/
theorem RefreshWhitelist_frame (config : SubmitQueueConfig)
    (UsersWithCommit : Except GoError (List String)) :
    (RefreshWhitelist config UsersWithCommit).2.userWhitelist =
        (RefreshWhitelist config UsersWithCommit).1 ∧
      (RefreshWhitelist config UsersWithCommit).2.additionalUserWhitelist =
        config.additionalUserWhitelist ∧
      (RefreshWhitelist config UsersWithCommit).2.committerList = config.committerList ∧
      (RefreshWhitelist config UsersWithCommit).2.Whitelist = config.Whitelist ∧
      (RefreshWhitelist config UsersWithCommit).2.Committers = config.Committers ∧
      (RefreshWhitelist config UsersWithCommit).2.WhitelistOverride =
        config.WhitelistOverride :=
  ⟨rfl, rfl, rfl, rfl, rfl, rfl⟩

/-- C19: the de-duplication loop of `doGenCommitters`, as a function of the fetched list
`C` and the loaded list `U`, is idempotent for fixed `C`. -/
theorem dedupUsers_idempotent (C U : List String) :
    dedupUsers C (dedupUsers C U) = dedupUsers C U :=
  dedupUsers_idem C U

/-- C15: reconciliation loses no authorization. When `doGenCommitters` succeeds with
the fetched list `C` and `U` is the list it loaded from the override file, the override
file holds the header and the list kept by the loop, every entry of `U` is in that
list or in `C`, and the usernames in `C` or the kept list are exactly those in `C` or
`U`. -/
theorem doGenCommitters_keeps_authorization (config : SubmitQueueConfig) (arg0 : String)
    (C U : List String) (fs : FS)
    (hrun : (doGenCommitters config arg0 (Except.ok C) fs).2 = Except.ok ())
    (hload : (loadWhitelist (writeWhitelist fs config.Committers (committersHeader arg0) C).1
      config.Whitelist).1 = some U) :
    (doGenCommitters config arg0 (Except.ok C) fs).1.files config.Whitelist =
        some (Join ([whitelistHeader arg0] ++ dedupUsers C U ++ [""]) "\n") ∧
      (∀ u ∈ U, u ∈ dedupUsers C U ∨ u ∈ C) ∧
      ∀ x, (x ∈ C ∨ x ∈ dedupUsers C U) ↔ (x ∈ C ∨ x ∈ U) := by
  obtain ⟨-, -, h3, h4⟩ := doGenCommitters_ok config arg0 C fs hrun
  have hfile := files_after_write _ _ _ _ h3
  have hmem : ∀ x, x ∈ dedupUsers C U ↔ x ∈ U ∧ x ∉ C := by
    intro x
    rw [dedupUsers_eq_keptEntries, keptEntries_mem_iff]
    simp
  refine ⟨?_, ?_, ?_⟩
  · rw [h4, hfile, hload]; simp
  · intro u hu
    by_cases hc : u ∈ C
    · exact Or.inr hc
    · exact Or.inl ((hmem u).2 ⟨hu, hc⟩)
  · intro x
    rw [hmem]
    by_cases hc : x ∈ C
    · simp [hc]
    · simp [hc]

theorem doGenCommitters_keeps_authorization_witness :
    (doGenCommitters exampleConfig "submit-queue" (Except.ok ["alice", "bob"])
        exampleFS).1.files exampleConfig.Whitelist =
        some (Join ([whitelistHeader "submit-queue"] ++
          dedupUsers ["alice", "bob"] ["alice", "carol", "carol"] ++ [""]) "\n") ∧
      (∀ u ∈ ["alice", "carol", "carol"],
        u ∈ dedupUsers ["alice", "bob"] ["alice", "carol", "carol"] ∨
          u ∈ ["alice", "bob"]) ∧
      ∀ x, (x ∈ ["alice", "bob"] ∨
          x ∈ dedupUsers ["alice", "bob"] ["alice", "carol", "carol"]) ↔
        (x ∈ ["alice", "bob"] ∨ x ∈ ["alice", "carol", "carol"]) :=
  doGenCommitters_keeps_authorization exampleConfig "submit-queue" ["alice", "bob"]
    ["alice", "carol", "carol"] exampleFS rfl (by decide)

/-- C17: the override list written by `doGenCommitters` has no duplicates. After a
successful run the override file holds the header and the list kept by the loop, and
no username occurs twice in that list; the loop gives a duplicate-free list for every
fetched list and every loaded list. -/
theorem doGenCommitters_override_nodup (config : SubmitQueueConfig) (arg0 : String)
    (C : List String) (fs : FS)
    (hrun : (doGenCommitters config arg0 (Except.ok C) fs).2 = Except.ok ()) :
    (doGenCommitters config arg0 (Except.ok C) fs).1.files config.Whitelist =
        some (Join ([whitelistHeader arg0] ++
          dedupUsers C ((loadWhitelist
            (writeWhitelist fs config.Committers (committersHeader arg0) C).1
            config.Whitelist).1.getD []) ++ [""]) "\n") ∧
      (dedupUsers C ((loadWhitelist
          (writeWhitelist fs config.Committers (committersHeader arg0) C).1
          config.Whitelist).1.getD [])).Nodup ∧
      ∀ C2 U2 : List String, (dedupUsers C2 U2).Nodup := by
  obtain ⟨-, -, h3, h4⟩ := doGenCommitters_ok config arg0 C fs hrun
  have hfile := files_after_write _ _ _ _ h3
  have hnd : ∀ C2 U2 : List String, (dedupUsers C2 U2).Nodup := by
    intro C2 U2
    rw [dedupUsers_eq_keptEntries]
    exact keptEntries_nodup C2 U2 []
  refine ⟨?_, hnd _ _, hnd⟩
  rw [h4, hfile]

theorem doGenCommitters_override_nodup_witness :
    (dedupUsers ["alice", "bob"] ((loadWhitelist
        (writeWhitelist exampleFS exampleConfig.Committers
          (committersHeader "submit-queue") ["alice", "bob"]).1
        exampleConfig.Whitelist).1.getD [])).Nodup :=
  (doGenCommitters_override_nodup exampleConfig "submit-queue" ["alice", "bob"]
    exampleFS rfl).2.1

theorem load_fails (fs : FS) (path : String) (hpath : path ≠ "")
    (hfile : fs.files path = none) :
    ∃ l e, loadWhitelist fs path = (l, some e) := by
  cases hst : fs.state (fs.fileOf path) with
  | absent =>
    exact ⟨none, GoError.PathError "open" path, by simp [loadWhitelist, osOpen, hpath, hst]⟩
  | readable content => simp [FS.files, hst] at hfile
  | faulty delivered err =>
    cases hscan : (scanLines MaxScanTokenSize [] delivered.data).2 with
    | none =>
      exact ⟨(loadWhitelist fs path).1, err,
        Prod.ext rfl (by simp [loadWhitelist, osOpen, hpath, hst, hscan])⟩
    | some e =>
      exact ⟨(loadWhitelist fs path).1, e,
        Prod.ext rfl (by simp [loadWhitelist, osOpen, hpath, hst, hscan])⟩

theorem doGenCommitters_load_abort (config : SubmitQueueConfig) (arg0 : String)
    (c : List String) (fs fs1 : FS) (users : Option (List String)) (e : GoError)
    (hw1 : writeWhitelist fs config.Committers (committersHeader arg0) c = (fs1, none))
    (hld : loadWhitelist fs1 config.Whitelist = (users, some e)) :
    doGenCommitters config arg0 (Except.ok c) fs =
      (fs1, Except.error "error loading whitelist; it will not be updated") := by
  simp [doGenCommitters, hw1, hld]

/-- C11 (as stated, refuted): with no override file, `doGenCommitters` does not complete:
it is ended by the fatal message of the load of the whitelist. -/
theorem doGenCommitters_missing_override_counterexample :
    emptyFS.files exampleConfig.Whitelist = none ∧
      (doGenCommitters exampleConfig "submit-queue" (Except.ok ["alice"]) emptyFS).2 =
        Except.error "error loading whitelist; it will not be updated" ∧
      (doGenCommitters exampleConfig "submit-queue" (Except.ok ["alice"]) emptyFS).2 ≠
        Except.ok () :=
  ⟨rfl, rfl, fun h => by cases h⟩

/-- C11 (amended): during `doGenCommitters` a missing override file is an error. For
every fetched list, when the committers file was written and the override path names
another file than the committers path and cannot be opened and read, the run ends
with the fatal message of the load of the whitelist and the override file is not
written; only the empty override path loads as the empty list, and then the run ends
with the fatal message of the write of the whitelist. -/
theorem doGenCommitters_missing_override (config : SubmitQueueConfig) (arg0 : String)
    (C : List String) (fs : FS)
    (hw1 : (writeWhitelist fs config.Committers (committersHeader arg0) C).2 = none)
    (hne : fs.fileOf config.Whitelist ≠ fs.fileOf config.Committers)
    (hmissing : fs.files config.Whitelist = none) :
    doGenCommitters config arg0 (Except.ok C) fs =
      ((writeWhitelist fs config.Committers (committersHeader arg0) C).1,
        Except.error (if config.Whitelist = "" then "Unable to write de-duped whitelist"
          else "error loading whitelist; it will not be updated")) := by
  have hfile : (writeWhitelist fs config.Committers (committersHeader arg0) C).1.files
      config.Whitelist = none := by
    rw [files_other_write _ _ _ _ _ hne]
    exact hmissing
  rcases hw : writeWhitelist fs config.Committers (committersHeader arg0) C with ⟨fs1, e1⟩
  rw [hw] at hw1 hfile
  have he1 : e1 = none := hw1
  subst he1
  have hfile1 : fs1.files config.Whitelist = none := hfile
  by_cases hempty : config.Whitelist = ""
  · have hld : loadWhitelist fs1 config.Whitelist = (some [], none) := by
      simp [loadWhitelist, hempty]
    have hw2 : writeWhitelist fs1 config.Whitelist (whitelistHeader arg0)
        (dedupUsers C []) = (fs1, some (GoError.PathError "open" config.Whitelist)) := by
      simp [writeWhitelist, WriteFile, hempty]
    rw [hempty] at hld hw2
    simp [doGenCommitters, hw, hld, hw2, hempty]
  · obtain ⟨l, e, hld⟩ := load_fails fs1 config.Whitelist hempty hfile1
    rw [doGenCommitters_load_abort config arg0 C fs fs1 l e hw hld]
    simp [hempty]

theorem doGenCommitters_missing_override_witness :
    doGenCommitters exampleConfig "submit-queue" (Except.ok ["alice"]) emptyFS =
      ((writeWhitelist emptyFS exampleConfig.Committers (committersHeader "submit-queue")
          ["alice"]).1,
        Except.error (if exampleConfig.Whitelist = "" then "Unable to write de-duped whitelist"
          else "error loading whitelist; it will not be updated")) :=
  doGenCommitters_missing_override exampleConfig "submit-queue" ["alice"] emptyFS
    rfl (by decide) rfl

/-- C12 (as stated, refuted): a run of `doGenCommitters` that fails at the load or at
the write of the override file has already replaced the committers file, and a write
of the override file that stops part way leaves that file cut short. -/
theorem doGenCommitters_partial_counterexample :
    ((doGenCommitters exampleConfig "submit-queue" (Except.ok ["alice"]) emptyFS).2 =
        Except.error "error loading whitelist; it will not be updated" ∧
      emptyFS.files "committers.txt" = none ∧
      (doGenCommitters exampleConfig "submit-queue" (Except.ok ["alice"])
        emptyFS).1.files "committers.txt" =
        some ("# auto-generated by submit-queue gen-committers; " ++
          "manual additions should go in the whitelist\nalice\n")) ∧
    ((doGenCommitters exampleConfig "submit-queue" (Except.ok ["alice"])
        readOnlyWhitelistFS).2 = Except.error "Unable to write de-duped whitelist" ∧
      readOnlyWhitelistFS.files "committers.txt" = none ∧
      (doGenCommitters exampleConfig "submit-queue" (Except.ok ["alice"])
        readOnlyWhitelistFS).1.files "committers.txt" =
        some ("# auto-generated by submit-queue gen-committers; " ++
          "manual additions should go in the whitelist\nalice\n")) ∧
    ((doGenCommitters exampleConfig "submit-queue" (Except.ok ["alice"])
        shortWriteFS).2 = Except.error "Unable to write de-duped whitelist" ∧
      shortWriteFS.files "whitelist.txt" = some "carol\n" ∧
      (doGenCommitters exampleConfig "submit-queue" (Except.ok ["alice"])
        shortWriteFS).1.files "whitelist.txt" = some "# rem") :=
  ⟨⟨rfl, rfl, by decide⟩, ⟨rfl, rfl, by decide⟩, ⟨rfl, rfl, by decide⟩⟩

/-- C12 (amended): a failed run of `doGenCommitters` can leave the files partly
updated, within these bounds. No file other than the committers file and the override
file changes. When the run fails at the fetch, nothing changes. When it fails at the
write of the committers file, every other file is as before and the committers file is
as before (it could not be opened for writing) or holds a part of the new text, from
its start. When it fails at the load of the override file, the committers file holds
the header and the fetched list and every other file is as before. When it fails at the
write of the override file, the committers file, if it is another file, holds the
header and the fetched list, and the override file is as the first phase left it or
holds a part of the new text, from its start. -/
theorem doGenCommitters_failure_effect (config : SubmitQueueConfig) (arg0 : String)
    (UsersWithCommit : Except GoError (List String)) (fs : FS) (msg : String)
    (hfail : (doGenCommitters config arg0 UsersWithCommit fs).2 = Except.error msg) :
    (∀ p, fs.fileOf p ≠ fs.fileOf config.Committers →
        fs.fileOf p ≠ fs.fileOf config.Whitelist →
        (doGenCommitters config arg0 UsersWithCommit fs).1.files p = fs.files p) ∧
      (msg = "Unable to read committers from github" →
        (doGenCommitters config arg0 UsersWithCommit fs).1 = fs) ∧
      (msg = "Unable to write committers" →
        ∃ c, UsersWithCommit = Except.ok c ∧
          (∀ p, fs.fileOf p ≠ fs.fileOf config.Committers →
            (doGenCommitters config arg0 UsersWithCommit fs).1.files p = fs.files p) ∧
          ((doGenCommitters config arg0 UsersWithCommit fs).1 = fs ∨
            ∃ n, (doGenCommitters config arg0 UsersWithCommit fs).1.files
                config.Committers =
              some (String.mk
                ((Join ([committersHeader arg0] ++ c ++ [""]) "\n").data.take n)))) ∧
      (msg = "error loading whitelist; it will not be updated" →
        ∃ c, UsersWithCommit = Except.ok c ∧
          (doGenCommitters config arg0 UsersWithCommit fs).1.files config.Committers =
            some (Join ([committersHeader arg0] ++ c ++ [""]) "\n") ∧
          ∀ p, fs.fileOf p ≠ fs.fileOf config.Committers →
            (doGenCommitters config arg0 UsersWithCommit fs).1.files p = fs.files p) ∧
      (msg = "Unable to write de-duped whitelist" →
        ∃ c, UsersWithCommit = Except.ok c ∧
          (fs.fileOf config.Committers ≠ fs.fileOf config.Whitelist →
            (doGenCommitters config arg0 UsersWithCommit fs).1.files config.Committers =
              some (Join ([committersHeader arg0] ++ c ++ [""]) "\n")) ∧
          ((doGenCommitters config arg0 UsersWithCommit fs).1 =
              (writeWhitelist fs config.Committers (committersHeader arg0) c).1 ∨
            ∃ n users, (doGenCommitters config arg0 UsersWithCommit fs).1.files
                config.Whitelist =
              some (String.mk ((Join ([whitelistHeader arg0] ++ dedupUsers c users ++
                [""]) "\n").data.take n)))) := by
  cases UsersWithCommit with
  | error e =>
    have hmsg : msg = "Unable to read committers from github" := by
      simp [doGenCommitters] at hfail
      exact hfail.symm
    subst hmsg
    refine ⟨fun p _ _ => rfl, fun _ => rfl, ?_, ?_, ?_⟩ <;>
      exact fun h => absurd h (by decide)
  | ok c =>
    have hother1 := files_other_write fs config.Committers (committersHeader arg0) c
    have hshape1 := writeWhitelist_shape fs config.Committers (committersHeader arg0) c
    have hstatic1 := writeWhitelist_static fs config.Committers (committersHeader arg0) c
    have hafter1 := files_after_write fs config.Committers (committersHeader arg0) c
    rcases hw1 : writeWhitelist fs config.Committers (committersHeader arg0) c with
      ⟨fs1, e1⟩
    rw [hw1] at hother1 hshape1 hstatic1 hafter1
    have hother : ∀ p, fs.fileOf p ≠ fs.fileOf config.Committers →
        fs1.files p = fs.files p := hother1
    have hfo1 : fs1.fileOf = fs.fileOf := hstatic1.1
    cases e1 with
    | some e =>
      have hres : doGenCommitters config arg0 (Except.ok c) fs =
          (fs1, Except.error "Unable to write committers") := by
        simp [doGenCommitters, hw1]
      rw [hres] at hfail ⊢
      have hmsg : msg = "Unable to write committers" := by
        simp at hfail
        exact hfail.symm
      subst hmsg
      refine ⟨fun p hp _ => hother p hp, fun h => absurd h (by decide), ?_,
        fun h => absurd h (by decide), fun h => absurd h (by decide)⟩
      intro _
      refine ⟨c, rfl, hother, ?_⟩
      rcases hshape1 with h | ⟨n, h⟩
      · exact Or.inl h
      · refine Or.inr ⟨n, ?_⟩
        have h2 : fs1 = _ := h
        rw [h2]
        exact put_files_same fs _ _ _ rfl
    | none =>
      have hcm : fs1.files config.Committers =
          some (Join ([committersHeader arg0] ++ c ++ [""]) "\n") := hafter1 rfl
      rcases hld : loadWhitelist fs1 config.Whitelist with ⟨users, e2⟩
      cases e2 with
      | some e =>
        rw [doGenCommitters_load_abort config arg0 c fs fs1 users e hw1 hld] at hfail ⊢
        have hmsg : msg = "error loading whitelist; it will not be updated" := by
          simp at hfail
          exact hfail.symm
        subst hmsg
        exact ⟨fun p hp _ => hother p hp, fun h => absurd h (by decide),
          fun h => absurd h (by decide), fun _ => ⟨c, rfl, hcm, hother⟩,
          fun h => absurd h (by decide)⟩
      | none =>
        have hother2 := files_other_write fs1 config.Whitelist (whitelistHeader arg0)
          (dedupUsers c (users.getD []))
        have hshape2 := writeWhitelist_shape fs1 config.Whitelist (whitelistHeader arg0)
          (dedupUsers c (users.getD []))
        rcases hw2 : writeWhitelist fs1 config.Whitelist (whitelistHeader arg0)
          (dedupUsers c (users.getD [])) with ⟨fs2, e3⟩
        rw [hw2] at hother2 hshape2
        have hother2b : ∀ p, fs.fileOf p ≠ fs.fileOf config.Whitelist →
            fs2.files p = fs1.files p := by
          intro p hp
          exact hother2 p (by rw [hfo1]; exact hp)
        cases e3 with
        | none =>
          have hres : doGenCommitters config arg0 (Except.ok c) fs =
              (fs2, Except.ok ()) := by
            simp [doGenCommitters, hw1, hld, hw2]
          rw [hres] at hfail
          cases hfail
        | some e =>
          have hres : doGenCommitters config arg0 (Except.ok c) fs =
              (fs2, Except.error "Unable to write de-duped whitelist") := by
            simp [doGenCommitters, hw1, hld, hw2]
          rw [hres] at hfail ⊢
          have hmsg : msg = "Unable to write de-duped whitelist" := by
            simp at hfail
            exact hfail.symm
          subst hmsg
          refine ⟨fun p hp1 hp2 => (hother2b p hp2).trans (hother p hp1),
            fun h => absurd h (by decide), fun h => absurd h (by decide),
            fun h => absurd h (by decide), ?_⟩
          intro _
          refine ⟨c, rfl, fun hne => (hother2b _ hne).trans hcm, ?_⟩
          rcases hshape2 with h | ⟨n, h⟩
          · refine Or.inl ?_
            rw [hw1]
            exact h
          · refine Or.inr ⟨n, users.getD [], ?_⟩
            have h2 : fs2 = _ := h
            rw [h2]
            exact put_files_same fs1 _ _ _ rfl

theorem doGenCommitters_failure_effect_witness :
    (∀ p, readOnlyWhitelistFS.fileOf p ≠ readOnlyWhitelistFS.fileOf exampleConfig.Committers →
        readOnlyWhitelistFS.fileOf p ≠ readOnlyWhitelistFS.fileOf exampleConfig.Whitelist →
        (doGenCommitters exampleConfig "submit-queue" (Except.ok ["alice"])
          readOnlyWhitelistFS).1.files p = readOnlyWhitelistFS.files p) ∧
      (doGenCommitters exampleConfig "submit-queue" (Except.ok ["alice"])
        readOnlyWhitelistFS).1.files exampleConfig.Committers =
        some (Join ([committersHeader "submit-queue"] ++ ["alice"] ++ [""]) "\n") :=
  ⟨(doGenCommitters_failure_effect exampleConfig "submit-queue" (Except.ok ["alice"])
      readOnlyWhitelistFS "Unable to write de-duped whitelist" rfl).1,
    by
      obtain ⟨c, hc, h, -⟩ := (doGenCommitters_failure_effect exampleConfig "submit-queue"
        (Except.ok ["alice"]) readOnlyWhitelistFS "Unable to write de-duped whitelist"
        rfl).2.2.2.2 rfl
      cases hc
      exact h (by decide)⟩

theorem committersHeader_no_lf (arg0 : String) (h : '\n' ∉ arg0.data) :
    '\n' ∉ (committersHeader arg0).data := by
  unfold committersHeader
  rw [String.data_append, String.data_append]
  simp only [List.mem_append, not_or]
  exact ⟨⟨by decide, h⟩, by decide⟩

theorem committersHeader_hasPrefix (arg0 : String) :
    HasPrefix (committersHeader arg0) "#" = true := by
  unfold HasPrefix committersHeader
  rw [String.data_append, String.data_append]
  have h1 : "# auto-generated by ".data = '#' :: " auto-generated by ".data := rfl
  have h2 : "#".data = ['#'] := rfl
  rw [h1, h2]
  simp [List.isPrefixOf]

set_option maxRecDepth 100000 in
/-- C14 (as stated, refuted): after a successful run of `doGenCommitters` the committers
file is not always the header followed by the fetched list, and loading it does not
always return the fetched list. When the committers path and the override path are
the same, or are two paths that name one file, the file holds the de-duplicated
whitelist, and a fetched entry that begins with `#` is not loaded back. -/
theorem doGenCommitters_committers_counterexample :
    ((doGenCommitters samePathConfig "submit-queue" (Except.ok ["alice"]) emptyFS).2 =
        Except.ok () ∧
      (doGenCommitters samePathConfig "submit-queue" (Except.ok ["alice"])
        emptyFS).1.files samePathConfig.Committers =
        some "# remove dups with submit-queue gen-committers\n" ∧
      (doGenCommitters samePathConfig "submit-queue" (Except.ok ["alice"])
        emptyFS).1.files samePathConfig.Committers ≠
        some (Join ([committersHeader "submit-queue"] ++ ["alice"] ++ [""]) "\n")) ∧
    ((doGenCommitters exampleConfig "submit-queue" (Except.ok ["#x"]) exampleFS).2 =
        Except.ok () ∧
      loadWhitelist
        (doGenCommitters exampleConfig "submit-queue" (Except.ok ["#x"]) exampleFS).1
        exampleConfig.Committers = (some [], none)) ∧
    (aliasConfig.Committers ≠ aliasConfig.Whitelist ∧
      (doGenCommitters aliasConfig "submit-queue" (Except.ok ["alice"]) aliasFS).2 =
        Except.ok () ∧
      (doGenCommitters aliasConfig "submit-queue" (Except.ok ["alice"])
        aliasFS).1.files aliasConfig.Committers =
        some "# remove dups with submit-queue gen-committers\n") :=
  ⟨⟨rfl, by decide, by decide⟩, ⟨rfl, by decide⟩, ⟨by decide, rfl, by decide⟩⟩

/-- C14 (amended): after a successful run of `doGenCommitters` in which the committers
path and the override path name different files, the committers file consists of the
auto-generated header line followed by exactly the entries of the fetched list `C` in
fetched order, each line ended by a line feed; and when the program name holds no line
feed, the header is shorter than 64 KiB and no entry of `C` begins with `#`, holds a
line feed, ends with a carriage return or is 64 KiB long or longer, loading the
committers file returns `C`. -/
theorem doGenCommitters_committers_file (config : SubmitQueueConfig) (arg0 : String)
    (C : List String) (fs : FS)
    (hrun : (doGenCommitters config arg0 (Except.ok C) fs).2 = Except.ok ())
    (hne : fs.fileOf config.Committers ≠ fs.fileOf config.Whitelist) :
    (doGenCommitters config arg0 (Except.ok C) fs).1.files config.Committers =
        some (Join ([committersHeader arg0] ++ C ++ [""]) "\n") ∧
      (Join ([committersHeader arg0] ++ C ++ [""]) "\n").data =
        fileChars (committersHeader arg0 :: C) ∧
      ('\n' ∉ arg0.data → byteLen (committersHeader arg0).data < MaxScanTokenSize →
        (∀ i ∈ C, HasPrefix i "#" = false ∧ '\n' ∉ i.data ∧
          i.data.getLast? ≠ some '\r' ∧ byteLen i.data < MaxScanTokenSize) →
        loadWhitelist (doGenCommitters config arg0 (Except.ok C) fs).1 config.Committers =
          (some C, none)) := by
  obtain ⟨h1, -, h3, h4⟩ := doGenCommitters_ok config arg0 C fs hrun
  obtain ⟨hCm, -, -⟩ := writeWhitelist_ok _ _ _ _ h1
  have hfo := (writeWhitelist_static fs config.Committers (committersHeader arg0) C).1
  have hfile : (doGenCommitters config arg0 (Except.ok C) fs).1.files config.Committers =
      some (Join ([committersHeader arg0] ++ C ++ [""]) "\n") := by
    rw [h4, files_other_write _ _ _ _ _ (by rw [hfo]; exact hne)]
    exact files_after_write _ _ _ _ h1
  refine ⟨hfile, Join_lines (committersHeader arg0 :: C), ?_⟩
  intro harg hlen hitems
  exact load_listFile _ config.Committers (committersHeader arg0) C hCm hfile
    (committersHeader_hasPrefix arg0) (committersHeader_no_lf arg0 harg) hlen hitems

theorem doGenCommitters_committers_file_witness :
    (doGenCommitters exampleConfig "submit-queue" (Except.ok ["alice", "bob"])
        exampleFS).1.files exampleConfig.Committers =
        some (Join ([committersHeader "submit-queue"] ++ ["alice", "bob"] ++ [""]) "\n") ∧
      loadWhitelist (doGenCommitters exampleConfig "submit-queue"
        (Except.ok ["alice", "bob"]) exampleFS).1 exampleConfig.Committers =
        (some ["alice", "bob"], none) :=
  ⟨(doGenCommitters_committers_file exampleConfig "submit-queue" ["alice", "bob"]
      exampleFS rfl (by decide)).1,
    (doGenCommitters_committers_file exampleConfig "submit-queue" ["alice", "bob"]
      exampleFS rfl (by decide)).2.2 (by decide) (by decide) (by decide)⟩

theorem replicate_hasPrefix (n : Nat) :
    HasPrefix (String.mk (List.replicate n 'a')) "#" = false := by
  show List.isPrefixOf ['#'] (List.replicate n 'a') = false
  cases n with
  | zero => rfl
  | succ n =>
    rw [List.replicate_succ]
    simp [List.isPrefixOf]

theorem replicate_no_cr (n : Nat) :
    (String.mk (List.replicate n 'a')).data.getLast? ≠ some '\r' := by
  intro h
  have h2 : '\r' ∈ List.replicate n 'a' := List.mem_of_getLast?_eq_some h
  exact absurd (List.eq_of_mem_replicate h2) (by decide)

/-- C20 (as stated, refuted): an item of 64 KiB that does not begin with `#`, holds no
line feed and does not end with a carriage return is not loaded back after a
successful `writeWhitelist` with a one-line header beginning with `#`. -/
theorem roundtrip_exact_counterexample :
    HasPrefix "# h" "#" = true ∧ '\n' ∉ "# h".data ∧
      HasPrefix (String.mk (List.replicate 65536 'a')) "#" = false ∧
      '\n' ∉ (String.mk (List.replicate 65536 'a')).data ∧
      (String.mk (List.replicate 65536 'a')).data.getLast? ≠ some '\r' ∧
      (writeWhitelist (oneFile "w" "") "w" "# h"
        [String.mk (List.replicate 65536 'a')]).2 = none ∧
      loadWhitelist (writeWhitelist (oneFile "w" "") "w" "# h"
        [String.mk (List.replicate 65536 'a')]).1 "w" ≠
        (some [String.mk (List.replicate 65536 'a')], none) :=
  ⟨by decide, by decide, replicate_hasPrefix 65536, replicate_no_lf 65536,
    replicate_no_cr 65536, (long_item_roundtrip 65536 (by decide)).1,
    (long_item_roundtrip 65536 (by decide)).2⟩

/-- C20 (amended): for every header that begins with `#`, holds no line feed and is
shorter than 64 KiB, and every list of items in which no item begins with `#`, holds
a line feed, ends with a carriage return or is 64 KiB long or longer, `loadWhitelist`
after a successful `writeWhitelist` returns exactly the items, the empty list and
empty-string items included; and for the list `alice`, `#x` the loaded list is
`alice` alone, the item beginning with `#` being dropped as a comment. -/
theorem roundtrip_exact (fs : FS) (path header : String) (items : List String)
    (hh : HasPrefix header "#" = true) (hhlf : '\n' ∉ header.data)
    (hhlen : byteLen header.data < MaxScanTokenSize)
    (hitems : ∀ i ∈ items, HasPrefix i "#" = false ∧ '\n' ∉ i.data ∧
      i.data.getLast? ≠ some '\r' ∧ byteLen i.data < MaxScanTokenSize)
    (hw : (writeWhitelist fs path header items).2 = none) :
    loadWhitelist (writeWhitelist fs path header items).1 path = (some items, none) ∧
      loadWhitelist (writeWhitelist (oneFile "w" "") "w" "# h" []).1 "w" =
        (some [], none) ∧
      loadWhitelist (writeWhitelist (oneFile "w" "") "w" "# h" ["", "alice"]).1 "w" =
        (some ["", "alice"], none) ∧
      loadWhitelist (writeWhitelist (oneFile "w" "") "w" "# h" ["alice", "#x"]).1 "w" =
        (some ["alice"], none) := by
  obtain ⟨hpath, -, -⟩ := writeWhitelist_ok fs path header items hw
  refine ⟨?_, by decide, by decide, by decide⟩
  exact load_listFile _ path header items hpath (files_after_write fs path header items hw)
    hh hhlf hhlen hitems

theorem roundtrip_exact_witness :
    loadWhitelist (writeWhitelist emptyFS "list" "#" ["", "carol", ""]).1 "list" =
      (some ["", "carol", ""], none) :=
  (roundtrip_exact emptyFS "list" "#" ["", "carol", ""]
    (by decide) (by decide) (by decide) (by decide) (by decide)).1

end SubmitQueue
